import Mathlib

/-! Goman backend: request execution and environment-variable substitution.

A shallow embedding of `backend/services/apiclient.go` (`ExecuteRequest` and the
environment methods), of `backend/database/environment.go` and of the request
lookups of `backend/database/request.go`, with the properties of the
specification stated over it.

Go strings are modelled as lists of characters.  Of the standard-library
functions the code calls, `strings.ReplaceAll`, `Header.Set`, `Header.Get` and
`Duration.Milliseconds` are modelled from their documented behaviour;
`json.Unmarshal`, `http.NewRequest`, `http.Client.Do`, `io.ReadAll`,
`json.Marshal` and the clock are components of a `World`.
-/

namespace Goman

/-- A Go string, as the list of its characters. -/
abbrev Str := List Char

/-! ## `strings.ReplaceAll` -/

/-- One left-to-right pass of `strings.Replace(s, old, new, -1)` for a non-empty
`old`: `skip` counts the characters of a matched occurrence still to be dropped.
At a position where `old` starts, `new` is written and the occurrence is
skipped; elsewhere the character is copied. -/
def replaceScan (old new : Str) : Nat → Str → Str
  | _, [] => []
  | skip + 1, _ :: cs => replaceScan old new skip cs
  | 0, c :: cs =>
    if old.isPrefixOf (c :: cs) then new ++ replaceScan old new (old.length - 1) cs
    else c :: replaceScan old new 0 cs

/-- Go `strings.ReplaceAll(s, old, new)`: every non-overlapping occurrence of
`old` in `s`, found left to right, replaced by `new`.  For an empty `old` Go
inserts `new` before the first character and after every character. -/
def ReplaceAll (s old new : Str) : Str :=
  if old = [] then new ++ s.flatMap (fun c => c :: new)
  else replaceScan old new 0 s

/-- The placeholder text `"{{" + key + "}}"` built at `apiclient.go:277`. -/
def token (key : Str) : Str := '{' :: '{' :: (key ++ ['}', '}'])

/-- The loop of `apiclient.go:276-278`: the entries of the variable map, in the
order the `range` statement visits them, each applied to the URL in turn. -/
def resolveURL (vars : List (Str × Str)) (url : Str) : Str :=
  vars.foldl (fun u kv => ReplaceAll u (token kv.1) kv.2) url

/-! ## Data model (`backend/models/models.go`) -/

/-- Go `error` values: `sql.ErrNoRows`, which `GetActiveEnvironment` tests for,
and every other error. -/
inductive Error where
  | ErrNoRows
  | other (msg : String)
  deriving DecidableEq, Repr

/-- The struct `models.Environment`; `CreatedAt` keeps the stored text. -/
structure Environment where
  ID : Int
  Name : Str
  Variables : Str
  IsActive : Bool
  CreatedAt : Str
  deriving DecidableEq, Repr

/-- The storage behind `database.DB`: the rows of table `environments` in
storage order, and the message of the error the storage reports to the next
statement when it is failing. -/
structure DB where
  environments : List Environment
  fault : Option String
  deriving DecidableEq, Repr

/-- Go `http.Header`, a `map[string][]string`, as an association list. -/
abbrev Header := List (Str × List Str)

/-- The request built by `http.NewRequest` and completed by `Header.Set`; `URL`
is the text given to `http.NewRequest`. -/
structure Request where
  Method : Str
  URL : Str
  Body : Str
  Header : Header
  deriving DecidableEq, Repr

/-- The fields of `http.Response` the code reads; `Body` is what
`io.ReadAll(resp.Body)` yields. -/
structure Response where
  StatusCode : Int
  Status : Str
  Header : Header
  Body : Except Error Str

/-- A value stored in the `map[string]interface{}` that `ExecuteRequest` returns. -/
inductive Value where
  | int (n : Int)
  | str (s : Str)
  deriving DecidableEq, Repr

/-- The returned `map[string]interface{}`, as its entries. -/
abbrev ResultMap := List (Str × Value)

/-! ## `database.GetActiveEnvironment` (`backend/database/environment.go:84-100`) -/

/-- The statement `SELECT ... WHERE is_active = 1 LIMIT 1` followed by
`row.Scan`: the storage error if the storage fails, `sql.ErrNoRows` if no row is
flagged active, else the first flagged row. -/
def scanActiveRow (db : DB) : Except Error Environment :=
  match db.fault with
  | some msg => .error (.other msg)
  | none =>
    match db.environments.find? (fun r => r.IsActive) with
    | some r => .ok r
    | none => .error .ErrNoRows

/-- Go `database.GetActiveEnvironment`, returning the pair `(*Environment, error)`. -/
def GetActiveEnvironment (db : DB) : Option Environment × Option Error :=
  match scanActiveRow db with
  | .error err =>
    if err = .ErrNoRows then (none, none)
    else (none, some err)
  | .ok environment => (some environment, none)

/-! ## `http.Header.Set` -/

/-- Go `validHeaderFieldByte`: the characters of an HTTP token. -/
def validHeaderFieldByte (c : Char) : Bool :=
  c.isAlphanum || c ∈ ['!', '#', '$', '%', '&', Char.ofNat 39, '*', '+', '-', '.', '^', '_',
    Char.ofNat 96, '|', '~']

/-- The casing pass of Go `canonicalMIMEHeaderKey`: upper case for the first
letter and for a letter after a dash, lower case for the others. -/
def canonScan : Bool → Str → Str
  | _, [] => []
  | upper, c :: cs =>
    let c1 := if upper then c.toUpper else c.toLower
    c1 :: canonScan (c1 == '-') cs

/-- Go `textproto.CanonicalMIMEHeaderKey`: a key with a character that is not
valid in a header field name is returned unchanged. -/
def CanonicalMIMEHeaderKey (s : Str) : Str :=
  if s.all validHeaderFieldByte then canonScan true s else s

/-- Assignment `h[k] = vs` on the association list. -/
def Header.assign : Header → Str → List Str → Header
  | [], k, vs => [(k, vs)]
  | (k1, vs1) :: h, k, vs => if k1 = k then (k, vs) :: h else (k1, vs1) :: Header.assign h k vs

/-- Go `Header.Set(key, value)`: the canonical key gets the single value. -/
def Header.Set (h : Header) (key value : Str) : Header :=
  Header.assign h (CanonicalMIMEHeaderKey key) [value]

/-- Go `Header.Get(key)`: the first value stored under the canonical key, or
the empty string. -/
def Header.Get (h : Header) (key : Str) : Str :=
  match h.lookup (CanonicalMIMEHeaderKey key) with
  | some (v :: _) => v
  | _ => []

/-! ## `ExecuteRequest` (`backend/services/apiclient.go:260-337`) -/

/-- What `ExecuteRequest` runs against: the storage, and the standard-library
calls whose results the code only inspects.
* `jsonUnmarshal text` is `json.Unmarshal` into a `map[string]string`, the
  entries listed in the order the following `range` loop visits them;
* `httpNewRequest method url` is the error of `http.NewRequest`, if any;
* `clientDo req` is `client.Do(req)`;
* `startNanos` and `endNanos` are the clock readings of `time.Now()` at line 301
  and of `time.Since` at line 312, in nanoseconds;
* `jsonMarshal h` is `json.Marshal(resp.Header)`. -/
structure World where
  db : DB
  jsonUnmarshal : Str → Except Error (List (Str × Str))
  httpNewRequest : Str → Str → Option Error
  clientDo : Request → Except Error Response
  startNanos : Int
  endNanos : Int
  jsonMarshal : Header → Except Error Str

/-- The pair `(map[string]interface{}, error)` that `ExecuteRequest` returns,
with the requests it handed to `client.Do`. -/
structure Outcome where
  result : Option ResultMap
  err : Option Error
  sent : List Request

/-- Go `Duration.Milliseconds`: whole milliseconds of a nanosecond count. -/
def Milliseconds (d : Int) : Int := d.tdiv 1000000

/-- Go `APIClientService.ExecuteRequest`. -/
def ExecuteRequest (w : World) (method url headers body : Str) : Outcome :=
  -- activeEnv, err := database.GetActiveEnvironment()
  match GetActiveEnvironment w.db with
  | (_, some err) => ⟨none, some err, []⟩
  | (activeEnv, none) =>
    -- if activeEnv != nil: parse the variables, replace them in the URL
    let resolved : Except Error Str :=
      match activeEnv with
      | none => .ok url
      | some env =>
        match w.jsonUnmarshal env.Variables with
        | .error err => .error err
        | .ok vars => .ok (resolveURL vars url)
    match resolved with
    | .error err => ⟨none, some err, []⟩
    | .ok url =>
      -- req, err := http.NewRequest(method, url, strings.NewReader(body))
      match w.httpNewRequest method url with
      | some err => ⟨none, some err, []⟩
      | none =>
        let req : Request := ⟨if method = [] then "GET".toList else method, url, body, []⟩
        -- if headers != "": parse them, req.Header.Set each
        let withHeaders : Except Error Request :=
          if headers ≠ [] then
            match w.jsonUnmarshal headers with
            | .error err => .error err
            | .ok headerMap =>
              .ok (headerMap.foldl (fun r kv => { r with Header := r.Header.Set kv.1 kv.2 }) req)
          else .ok req
        match withHeaders with
        | .error err => ⟨none, some err, []⟩
        | .ok req =>
          -- resp, err := client.Do(req)
          match w.clientDo req with
          | .error err => ⟨none, some err, [req]⟩
          | .ok resp =>
            let responseTime := Milliseconds (w.endNanos - w.startNanos)
            -- respBody, err := io.ReadAll(resp.Body)
            match resp.Body with
            | .error err => ⟨none, some err, [req]⟩
            | .ok respBody =>
              -- headerBytes, err := json.Marshal(resp.Header)
              match w.jsonMarshal resp.Header with
              | .error err => ⟨none, some err, [req]⟩
              | .ok headerBytes =>
                ⟨some [("status".toList, .int resp.StatusCode),
                       ("statusText".toList, .str resp.Status),
                       ("headers".toList, .str headerBytes),
                       ("body".toList, .str respBody),
                       ("responseTime".toList, .int responseTime),
                       ("contentType".toList, .str (resp.Header.Get "Content-Type".toList))],
                 none, [req]⟩

/-! ## The stages of `ExecuteRequest`, named for the proofs -/

/-- The header map after `Header.Set` of every entry, in traversal order
(`apiclient.go:295-297`). -/
def setHeaders (headerMap : List (Str × Str)) (h : Header) : Header :=
  headerMap.foldl (fun h kv => h.Set kv.1 kv.2) h

/-- Lines 262-279: the URL that reaches `http.NewRequest`, or the error that ends
the call before. -/
def stageResolve (w : World) (url : Str) : Except Error Str :=
  match GetActiveEnvironment w.db with
  | (_, some err) => .error err
  | (none, none) => .ok url
  | (some env, none) =>
    match w.jsonUnmarshal env.Variables with
    | .error err => .error err
    | .ok vars => .ok (resolveURL vars url)

/-- Lines 262-298: the request that reaches `client.Do`, or the error that ends the
call before. -/
def stageRequest (w : World) (method url headers body : Str) : Except Error Request :=
  match stageResolve w url with
  | .error err => .error err
  | .ok u =>
    match w.httpNewRequest method u with
    | some err => .error err
    | none =>
      if headers ≠ [] then
        match w.jsonUnmarshal headers with
        | .error err => .error err
        | .ok headerMap =>
          .ok ⟨if method = [] then "GET".toList else method, u, body, setHeaders headerMap []⟩
      else .ok ⟨if method = [] then "GET".toList else method, u, body, []⟩

/-- The six keys of the result map, in the order of the map literal
(`apiclient.go:327-334`). -/
def resultKeys : List Str :=
  ["status".toList, "statusText".toList, "headers".toList, "body".toList,
   "responseTime".toList, "contentType".toList]

/-- Lines 300-336: the result map built from the exchange, or the error that ends
the call. -/
def stageRespond (w : World) (req : Request) : Except Error ResultMap :=
  match w.clientDo req with
  | .error err => .error err
  | .ok resp =>
    match resp.Body with
    | .error err => .error err
    | .ok respBody =>
      match w.jsonMarshal resp.Header with
      | .error err => .error err
      | .ok headerBytes =>
        .ok [("status".toList, .int resp.StatusCode),
             ("statusText".toList, .str resp.Status),
             ("headers".toList, .str headerBytes),
             ("body".toList, .str respBody),
             ("responseTime".toList, .int (Milliseconds (w.endNanos - w.startNanos))),
             ("contentType".toList, .str (resp.Header.Get "Content-Type".toList))]

/-- A name or text without brace characters. -/
def braceFree (s : Str) : Prop := ∀ c ∈ s, c ≠ '{' ∧ c ≠ '}'

instance (s : Str) : Decidable (braceFree s) := by unfold braceFree; infer_instance


/-! ## Templates and the specification's resolver -/

/-- A piece of a URL template: literal text, or the placeholder of a name. -/
inductive Seg where
  | lit (text : Str)
  | tok (name : Str)
  deriving DecidableEq, Repr

/-- The text of a piece. -/
def Seg.render : Seg → Str
  | .lit s => s
  | .tok n => token n

/-- The URL a template stands for: its pieces, concatenated. -/
def render : List Seg → Str
  | [] => []
  | seg :: rest => seg.render ++ render rest

/-- A piece is well formed when its text, or its name, has no brace character:
the braces of a well-formed template are exactly those of its placeholders. -/
def Seg.wellFormed : Seg → Prop
  | .lit s => braceFree s
  | .tok n => braceFree n

instance (seg : Seg) : Decidable seg.wellFormed := by
  cases seg <;> (unfold Seg.wellFormed; infer_instance)

/-- A placeholder whose name is a key of the mapping becomes that key's value;
every other piece stays. -/
def Seg.fill (m : List (Str × Str)) : Seg → Seg
  | .lit s => .lit s
  | .tok n =>
    match m.find? (fun kv => kv.1 = n) with
    | some kv => .lit kv.2
    | none => .tok n

/-- The same for a single variable. -/
def Seg.fillOne (k v : Str) : Seg → Seg
  | .lit s => .lit s
  | .tok n => if k = n then .lit v else .tok n

/-- The first entry of the mapping whose token starts the text. -/
def firstMatch (m : List (Str × Str)) (s : Str) : Option (Str × Str) :=
  m.find? (fun kv => (token kv.1).isPrefixOf s)

/-- The specification's resolver (sections 4.1 and 8), one pass over the input
URL: at a position where the token of a key starts, the key's value is written
and the token skipped; elsewhere the character is copied.  Values are not
scanned again. -/
def substituteScan (m : List (Str × Str)) : Nat → Str → Str
  | _, [] => []
  | skip + 1, _ :: cs => substituteScan m skip cs
  | 0, c :: cs =>
    match firstMatch m (c :: cs) with
    | some kv => kv.2 ++ substituteScan m ((token kv.1).length - 1) cs
    | none => c :: substituteScan m 0 cs

/-- The specification's wording of resolution: the input URL with every token
of every key replaced by the key's value. -/
def substituteTokens (m : List (Str × Str)) (url : Str) : Str := substituteScan m 0 url


/-- The world in which the transport's response carries the status code `code`
and is otherwise the same. -/
def World.withStatusCode (w : World) (code : Int) : World :=
  { w with clientDo := fun req =>
      match w.clientDo req with
      | .error err => .error err
      | .ok resp => .ok { resp with StatusCode := code } }

/-! ## Concrete worlds -/

/-- The JSON text of a string-to-string mapping (for texts that need no escape). -/
def jsonObject (m : List (Str × Str)) : Str :=
  '{' :: (List.intercalate [','] (m.map fun kv =>
    Char.ofNat 34 :: kv.1 ++ [Char.ofNat 34, ':', Char.ofNat 34] ++ kv.2 ++ [Char.ofNat 34]))
    ++ ['}']

/-- A decoder given by a table: a listed text decodes to its entries, in the
order the table lists them (the order the `range` loop will visit them); every
other text is rejected. -/
def decodeTable (table : List (Str × List (Str × Str))) (text : Str) :
    Except Error (List (Str × Str)) :=
  match table.lookup text with
  | some m => .ok m
  | none => .error (.other "invalid character looking for beginning of value")

/-- A stored environment, flagged active, with the given variables text. -/
def sampleEnv (vars : Str) : Environment :=
  ⟨1, "dev".toList, vars, true, "2024-01-01 00:00:00".toList⟩

/-- The response of the specification's mock endpoint: 200, body `ok`,
`Content-Type: text/plain`. -/
def sampleResponse : Response :=
  ⟨200, "200 OK".toList, [("Content-Type".toList, ["text/plain".toList])], .ok "ok".toList⟩

/-- A world with the given rows and decoder table, a transport that answers
every request with `resp` after 5.5 ms, and no failing component. -/
def sampleWorld (rows : List Environment) (table : List (Str × List (Str × Str)))
    (resp : Response) : World where
  db := ⟨rows, none⟩
  jsonUnmarshal := decodeTable table
  httpNewRequest := fun _ _ => none
  clientDo := fun _ => .ok resp
  startNanos := 1000000
  endNanos := 6500000
  jsonMarshal := fun h => .ok (jsonObject (h.map fun kv => (kv.1, kv.2.headD [])))

/-- The name `a`. -/
def nameA : Str := ['a']

/-- The name `b`. -/
def nameB : Str := ['b']

/-- The name `u`, a key of no mapping below. -/
def nameU : Str := ['u']

/-- Two variables whose values are each other's placeholder. -/
def varsCross : List (Str × Str) := [(nameA, token nameB), (nameB, token nameA)]

/-- A variable whose value is the placeholder of the next one. -/
def varsChain : List (Str × Str) := [(nameA, token nameB), (nameB, ['x'])]

/-- A variable whose name begins with two braces. -/
def varsBrace : List (Str × Str) := [('{' :: '{' :: nameU, ['X'])]

/-- Two plain variables. -/
def varsPlain : List (Str × Str) := [(nameA, "api.test".toList), (nameB, "42".toList)]

/-- The world whose active environment stores the JSON text of `stored`, and
where the `range` loop visits the entries in the order of `visited`. -/
def worldVisiting (stored visited : List (Str × Str)) : World :=
  sampleWorld [sampleEnv (jsonObject stored)] [(jsonObject stored, visited)] sampleResponse

/-- The world whose active environment stores `vars`, visited in the listed order. -/
def worldWith (vars : List (Str × Str)) : World := worldVisiting vars vars

/-- The world with one stored environment, not flagged active. -/
def worldNoActive : World :=
  sampleWorld [{ sampleEnv (jsonObject varsPlain) with IsActive := false }]
    [(jsonObject varsPlain, varsPlain)] sampleResponse

/-- A template with two known placeholders and an unknown one:
`http://{{a}}/{{b}}/{{u}}`. -/
def sampleTemplate : List Seg :=
  [.lit "http://".toList, .tok nameA, .lit ['/'], .tok nameB, .lit ['/'], .tok nameU]

/-- The method text `GET`. -/
def methodGET : Str := "GET".toList

/-! ## Environment storage (`backend/database/environment.go`) -/

/-- The table `environments` as the storage statements see it: its rows in
storage order, and SQLite's `AUTOINCREMENT` counter, the largest id assigned so
far. -/
structure EnvTable where
  rows : List Environment
  lastID : Int
  deriving DecidableEq, Repr

/-- The storage a lookup runs against: the table's rows, and the error message
of the storage when the lookup's statement fails. -/
def EnvTable.db (t : EnvTable) (fault : Option String) : DB := ⟨t.rows, fault⟩

/-- The id SQLite assigns to an inserted row of an `AUTOINCREMENT` table: one
more than the largest id that ever existed in the table. -/
def EnvTable.nextID (t : EnvTable) : Int :=
  (t.rows.map (fun r => r.ID)).foldl max t.lastID + 1

/-- Go `database.CreateEnvironment`: one `INSERT ... RETURNING id, created_at`.
`fault` is the error message of the storage when the statement fails, `now` the
text of `CURRENT_TIMESTAMP`.  Returns the table, the caller's struct with `ID`
and `CreatedAt` filled in, and the error. -/
def database.CreateEnvironment (t : EnvTable) (fault : Option String) (now : Str)
    (environment : Environment) : EnvTable × Environment × Option Error :=
  match fault with
  | some msg => (t, environment, some (.other msg))
  | none =>
    let id := t.nextID
    (⟨t.rows ++ [⟨id, environment.Name, environment.Variables, environment.IsActive, now⟩],
      id⟩,
     { environment with ID := id, CreatedAt := now }, none)

/-- Go `database.UpdateEnvironment`: one
`UPDATE environments SET name = ?, variables = ?, is_active = ? WHERE id = ?`.
A statement that matches no row is not an error. -/
def database.UpdateEnvironment (t : EnvTable) (fault : Option String)
    (environment : Environment) : EnvTable × Option Error :=
  match fault with
  | some msg => (t, some (.other msg))
  | none =>
    ({ t with rows := t.rows.map fun r =>
        if r.ID = environment.ID then
          { r with Name := environment.Name, Variables := environment.Variables,
                   IsActive := environment.IsActive }
        else r }, none)

/-- Go `database.DeleteEnvironment`: one `DELETE FROM environments WHERE id = ?`. -/
def database.DeleteEnvironment (t : EnvTable) (fault : Option String) (id : Int) :
    EnvTable × Option Error :=
  match fault with
  | some msg => (t, some (.other msg))
  | none => ({ t with rows := t.rows.filter fun r => r.ID ≠ id }, none)

/-- Go `database.SetActiveEnvironment`: `UPDATE environments SET is_active = 0`,
and, if that statement did not fail, `UPDATE environments SET is_active = 1
WHERE id = ?`.  `fault1` and `fault2` are the error messages of the storage when
the first or the second statement fails. -/
def database.SetActiveEnvironment (t : EnvTable) (fault1 fault2 : Option String) (id : Int) :
    EnvTable × Option Error :=
  -- First, set all environments to inactive
  match fault1 with
  | some msg => (t, some (.other msg))
  | none =>
    let t1 : EnvTable := { t with rows := t.rows.map fun r => { r with IsActive := false } }
    -- Then, set the specified environment to active
    match fault2 with
    | some msg => (t1, some (.other msg))
    | none =>
      ({ t1 with rows := t1.rows.map fun r =>
          if r.ID = id then { r with IsActive := true } else r }, none)

/-! ## Environment methods of the service (`backend/services/apiclient.go:167-215`) -/

/-- Go `APIClientService.CreateEnvironment`: the struct it builds has the zero
value `false` for `IsActive`. -/
def APIClientService.CreateEnvironment (t : EnvTable) (fault : Option String) (now : Str)
    (name vars : Str) : EnvTable × Option Environment × Option Error :=
  let environment : Environment := ⟨0, name, vars, false, []⟩
  match database.CreateEnvironment t fault now environment with
  | (t1, _, some err) => (t1, none, some err)
  | (t1, environment, none) => (t1, some environment, none)

/-- Go `APIClientService.UpdateEnvironment`: the row update, then, if `isActive`,
`database.SetActiveEnvironment`.  `fault0`, `fault1`, `fault2` are the error
messages of the storage for the three statements, in order. -/
def APIClientService.UpdateEnvironment (t : EnvTable) (fault0 fault1 fault2 : Option String)
    (id : Int) (name vars : Str) (isActive : Bool) :
    EnvTable × Option Environment × Option Error :=
  let environment : Environment := ⟨id, name, vars, isActive, []⟩
  match database.UpdateEnvironment t fault0 environment with
  | (t1, some err) => (t1, none, some err)
  | (t1, none) =>
    -- If this environment is set to active, update the active environment
    if isActive then
      match database.SetActiveEnvironment t1 fault1 fault2 id with
      | (t2, some err) => (t2, none, some err)
      | (t2, none) => (t2, some environment, none)
    else (t1, some environment, none)

/-- Go `APIClientService.DeleteEnvironment`. -/
def APIClientService.DeleteEnvironment (t : EnvTable) (fault : Option String) (id : Int) :
    EnvTable × Option Error :=
  database.DeleteEnvironment t fault id

/-- A call of one of the service's environment operations, with the fate of
each of its storage statements. -/
inductive EnvOp where
  | create (name vars now : Str) (fault : Option String)
  | update (id : Int) (name vars : Str) (isActive : Bool) (fault0 fault1 fault2 : Option String)
  | delete (id : Int) (fault : Option String)
  deriving DecidableEq, Repr

/-- The store an operation leaves behind, whether it returned an error or not. -/
def EnvOp.run (t : EnvTable) : EnvOp → EnvTable
  | .create name vars now fault => (APIClientService.CreateEnvironment t fault now name vars).1
  | .update id name vars isActive fault0 fault1 fault2 =>
    (APIClientService.UpdateEnvironment t fault0 fault1 fault2 id name vars isActive).1
  | .delete id fault => (APIClientService.DeleteEnvironment t fault id).1

/-- The store reached from the empty store by a sequence of operations. -/
def runOps (ops : List EnvOp) : EnvTable := ops.foldl EnvOp.run ⟨[], 0⟩

/-- The number of rows whose active flag is set. -/
def EnvTable.activeCount (t : EnvTable) : Nat := t.rows.countP fun r => r.IsActive

/-- The part-way failure in which the row update has run with `isActive` and
the statement that deactivates all rows then fails. -/
def EnvOp.deactivationFails : EnvOp → Bool
  | .update _ _ _ isActive fault0 fault1 _ => isActive && fault0.isNone && fault1.isSome
  | _ => false

/-- Two created environments, the first activated, then the second activated
by a call whose deactivating statement fails. -/
def opsTwoActive : List EnvOp :=
  [.create "dev".toList [] "2024-01-01 00:00:00".toList none,
   .create "prod".toList [] "2024-01-01 00:00:01".toList none,
   .update 1 "dev".toList [] true none none none,
   .update 2 "prod".toList [] true none (some "database is locked") none]

/-! ## Request storage (`backend/database/request.go`) -/

/-- A row of table `requests`; the columns `collection_id` and `folder_id` may
be NULL. -/
structure RequestRow where
  id : Int
  name : Str
  method : Str
  url : Str
  headers : Str
  body : Str
  collection_id : Option Int
  folder_id : Option Int
  created_at : Str
  updated_at : Str
  deriving DecidableEq, Repr

/-- The struct `models.Request`; a nil `*int` is `none`, and `CreatedAt`,
`UpdatedAt` keep the stored text. -/
structure models.Request where
  ID : Int
  Name : Str
  Method : Str
  URL : Str
  Headers : Str
  Body : Str
  CollectionID : Option Int
  FolderID : Option Int
  CreatedAt : Str
  UpdatedAt : Str
  deriving DecidableEq, Repr

/-- The clause `ORDER BY name`: the rows in the order of their names, rows of
equal name in storage order. -/
def orderByName (rows : List RequestRow) : List RequestRow :=
  rows.insertionSort fun a b => a.name ≤ b.name

/-- Go `database.GetRequest`: `SELECT ... WHERE id = ?`, then `row.Scan`; both
nullable columns are scanned into a `sql.NullInt64` and copied to the struct
when valid. -/
def GetRequest (rows : List RequestRow) (fault : Option String) (id : Int) :
    Option models.Request × Option Error :=
  match fault with
  | some msg => (none, some (.other msg))
  | none =>
    match rows.find? (fun row => row.id = id) with
    | none => (none, some .ErrNoRows)
    | some row =>
      let request : models.Request :=
        ⟨row.id, row.name, row.method, row.url, row.headers, row.body, none, none, [], []⟩
      -- if collectionID.Valid { request.CollectionID = &val }
      let request :=
        match row.collection_id with
        | some val => { request with CollectionID := some val }
        | none => request
      -- if folderID.Valid { request.FolderID = &val }
      let request :=
        match row.folder_id with
        | some val => { request with FolderID := some val }
        | none => request
      (some { request with CreatedAt := row.created_at, UpdatedAt := row.updated_at }, none)

/-- Go `database.GetRequestsByCollection`: `SELECT ... WHERE collection_id = ?
ORDER BY name`; each row's `collection_id` is scanned into the parameter
`collectionID`, its `folder_id` into a `sql.NullInt64` that is copied to the
struct when valid. -/
def GetRequestsByCollection (rows : List RequestRow) (fault : Option String)
    (collectionID : Int) : List models.Request × Option Error :=
  match fault with
  | some msg => ([], some (.other msg))
  | none =>
    ((orderByName (rows.filter fun row => row.collection_id = some collectionID)).map
      fun row =>
        let request : models.Request :=
          ⟨row.id, row.name, row.method, row.url, row.headers, row.body, none, none, [], []⟩
        -- if folderID.Valid { request.FolderID = &val }
        let request :=
          match row.folder_id with
          | some val => { request with FolderID := some val }
          | none => request
        { request with CreatedAt := row.created_at, UpdatedAt := row.updated_at },
     none)

/-- Go `database.GetRequestsByFolder`: `SELECT ... WHERE folder_id = ? ORDER BY
name`; each row's `folder_id` is scanned into the parameter `folderID`, its
`collection_id` into a `sql.NullInt64` that is copied to the struct when valid. -/
def GetRequestsByFolder (rows : List RequestRow) (fault : Option String)
    (folderID : Int) : List models.Request × Option Error :=
  match fault with
  | some msg => ([], some (.other msg))
  | none =>
    ((orderByName (rows.filter fun row => row.folder_id = some folderID)).map
      fun row =>
        let request : models.Request :=
          ⟨row.id, row.name, row.method, row.url, row.headers, row.body, none, none, [], []⟩
        -- if collectionID.Valid { request.CollectionID = &val }
        let request :=
          match row.collection_id with
          | some val => { request with CollectionID := some val }
          | none => request
        { request with CreatedAt := row.created_at, UpdatedAt := row.updated_at },
     none)

/-- A stored request in collection 1 and folder 2. -/
def sampleRequestRow : RequestRow :=
  ⟨5, "list users".toList, "GET".toList, "http://h/users".toList, [], [], some 1, some 2,
    "2024-01-01 00:00:00".toList, "2024-01-01 00:00:00".toList⟩

/-- The record `GetRequest` returns for `sampleRequestRow`. -/
def sampleRequestRecord : models.Request :=
  ⟨5, "list users".toList, "GET".toList, "http://h/users".toList, [], [], some 1, some 2,
    "2024-01-01 00:00:00".toList, "2024-01-01 00:00:00".toList⟩

/-- The same store and calls as `opsTwoActive`, but the failing statement of the
last call is the one that activates the row; then a failing delete and a
failing create. -/
def opsOneActive : List EnvOp :=
  [.create "dev".toList [] "2024-01-01 00:00:00".toList none,
   .create "prod".toList [] "2024-01-01 00:00:01".toList none,
   .update 1 "dev".toList [] true none none none,
   .update 2 "prod".toList [] true none none (some "database is locked"),
   .update 1 "dev".toList [] true none none none,
   .delete 2 (some "database is locked"),
   .create "test".toList [] "2024-01-01 00:00:02".toList (some "database is locked")]

/-- A header payload with two keys that differ only in letter case. -/
def headersCase : List (Str × Str) := [("x-a".toList, ['1']), ("X-A".toList, ['2'])]

/-- A header payload with two keys of different canonical form. -/
def headersPlain : List (Str × Str) :=
  [("accept".toList, "text/html".toList), ("X-Tag".toList, token nameA)]

/-- The world with no active environment whose header decoder visits the
entries of `stored` in the order of `visited`. -/
def worldHeaders (stored visited : List (Str × Str)) : World :=
  sampleWorld [] [(jsonObject stored, visited)] sampleResponse

/-- A store with one environment, `dev`, which is active. -/
def tableDevActive : EnvTable :=
  runOps [.create "dev".toList [] "2024-01-01 00:00:00".toList none,
          .update 1 "dev".toList [] true none none none]

/-! ## Facts about `replaceScan` -/

theorem replaceScan_skip (old new : Str) (n : Nat) (s : Str) :
    replaceScan old new n s = replaceScan old new 0 (s.drop n) := by
  induction s generalizing n with
  | nil => cases n <;> simp [replaceScan]
  | cons c cs ih =>
    cases n with
    | zero => rfl
    | succ k => simp only [replaceScan, List.drop_succ_cons]; exact ih k

theorem replaceScan_cons_of_no_match (old new : Str) (c : Char) (cs : Str)
    (h : ¬ old <+: c :: cs) :
    replaceScan old new 0 (c :: cs) = c :: replaceScan old new 0 cs := by
  have : old.isPrefixOf (c :: cs) = false := by
    rw [Bool.eq_false_iff]; intro hp; exact h (List.isPrefixOf_iff_prefix.mp hp)
  simp [replaceScan, this]

theorem replaceScan_prefix (old new rest : Str) (h : old ≠ []) :
    replaceScan old new 0 (old ++ rest) = new ++ replaceScan old new 0 rest := by
  cases old with
  | nil => exact absurd rfl h
  | cons a o =>
    have hp : (a :: o).isPrefixOf (a :: (o ++ rest)) = true :=
      List.isPrefixOf_iff_prefix.mpr ⟨rest, rfl⟩
    show replaceScan (a :: o) new 0 (a :: (o ++ rest)) = _
    simp only [replaceScan, hp, if_true, List.length_cons, Nat.add_sub_cancel]
    rw [replaceScan_skip, List.drop_left]

theorem replaceScan_append_of_no_match (old new : Str) (seg rest : Str)
    (h : ∀ p t, seg = p ++ t → t ≠ [] → ¬ old <+: t ++ rest) :
    replaceScan old new 0 (seg ++ rest) = seg ++ replaceScan old new 0 rest := by
  induction seg with
  | nil => rfl
  | cons c cs ih =>
    have h0 : ¬ old <+: c :: (cs ++ rest) := h [] (c :: cs) rfl (by simp)
    show replaceScan old new 0 (c :: (cs ++ rest)) = c :: (cs ++ replaceScan old new 0 rest)
    rw [replaceScan_cons_of_no_match _ _ _ _ h0, ih]
    · intro p t hpt ht
      exact h (c :: p) t (by rw [hpt]; rfl) ht

theorem token_ne_nil (k : Str) : token k ≠ [] := by simp [token]

theorem ReplaceAll_token (s k v : Str) :
    ReplaceAll s (token k) v = replaceScan (token k) v 0 s := by
  simp [ReplaceAll, token_ne_nil]

/-! ## Tokens of brace-free names do not overlap -/

theorem braceFree_key_eq (k n x y : Str) (hk : braceFree k) (hn : braceFree n)
    (h : k ++ '}' :: x <+: n ++ '}' :: y) : k = n := by
  induction k generalizing n with
  | nil =>
    cases n with
    | nil => rfl
    | cons c n =>
      simp only [List.nil_append, List.cons_append, List.cons_prefix_cons] at h
      exact absurd h.1.symm (hn c (by simp)).2
  | cons a k ih =>
    cases n with
    | nil =>
      simp only [List.nil_append, List.cons_append, List.cons_prefix_cons] at h
      exact absurd h.1 (hk a (by simp)).2
    | cons c n =>
      simp only [List.cons_append, List.cons_prefix_cons] at h
      rw [h.1, ih n (fun d hd => hk d (by simp [hd])) (fun d hd => hn d (by simp [hd])) h.2]

theorem token_prefix_token (k n rest : Str) (hk : braceFree k) (hn : braceFree n)
    (h : token k <+: token n ++ rest) : k = n := by
  simp only [token, List.cons_append, List.cons_prefix_cons, true_and, List.append_assoc] at h
  exact braceFree_key_eq k n _ _ hk hn h

/-- A proper non-empty suffix of a token with a brace-free name does not begin
like a token. -/
theorem token_suffix_head (n p t : Str) (hn : braceFree n) (h : token n = p ++ t)
    (hp : p ≠ []) (ht : t ≠ []) :
    (∃ a t1, t = a :: t1 ∧ a ≠ '{') ∨ (∃ a t1, t = '{' :: a :: t1 ∧ a ≠ '{') := by
  have hmem : ∀ a ∈ n ++ ['}', '}'], a ≠ '{' := by
    intro a ha
    rcases List.mem_append.mp ha with ha | ha
    · exact (hn a ha).1
    · simp at ha; rcases ha with rfl | rfl
      all_goals decide
  cases p with
  | nil => exact absurd rfl hp
  | cons b p =>
    cases p with
    | nil =>
      right
      simp only [token, List.cons_append, List.nil_append, List.cons.injEq] at h
      obtain ⟨_, h⟩ := h
      cases hn2 : n ++ ['}', '}'] with
      | nil => simp at hn2
      | cons a t1 =>
        refine ⟨a, t1, by rw [← h, hn2], hmem a (by rw [hn2]; simp)⟩
    | cons b2 p =>
      left
      simp only [token, List.cons_append, List.cons.injEq] at h
      obtain ⟨_, _, h⟩ := h
      cases t with
      | nil => exact absurd rfl ht
      | cons a t1 =>
        exact ⟨a, t1, rfl, hmem a (by rw [h]; simp)⟩

theorem token_not_prefix_inside (k n p t rest : Str) (hn : braceFree n)
    (h : token n = p ++ t) (hp : p ≠ []) (ht : t ≠ []) : ¬ token k <+: t ++ rest := by
  intro hpre
  rcases token_suffix_head n p t hn h hp ht with ⟨a, t1, rfl, ha⟩ | ⟨a, t1, rfl, ha⟩
  · simp only [token, List.cons_append, List.cons_prefix_cons] at hpre
    exact ha hpre.1.symm
  · simp only [token, List.cons_append, List.cons_prefix_cons] at hpre
    exact ha hpre.2.1.symm

theorem token_prefix_cover (k pre rest : Str) (hk : braceFree k) (hpre : pre ≠ [])
    (h : token k <+: pre ++ ('{' :: '{' :: rest)) : ∃ pre2, pre = token k ++ pre2 := by
  rcases List.prefix_or_prefix_of_prefix h (List.prefix_append pre _) with h1 | h1
  · exact ⟨_, (List.prefix_iff_eq_append.mp h1).symm⟩
  · obtain ⟨t, ht⟩ := h1
    by_cases hte : t = []
    · exact ⟨[], by rw [← ht, hte]; simp⟩
    · exfalso
      rw [← ht, List.prefix_append_right_inj] at h
      rcases token_suffix_head k pre t hk ht.symm hpre hte with
        ⟨a, t1, rfl, ha⟩ | ⟨a, t1, rfl, ha⟩
      · simp only [List.cons_prefix_cons] at h
        exact ha h.1
      · simp only [List.cons_prefix_cons] at h
        exact ha h.2.1

/-! ## A token of an unknown name survives a replacement -/

theorem replaceScan_keeps_token (k u v : Str) (hk : braceFree k) (hu : braceFree u)
    (hne : k ≠ u) (n : Nat) :
    ∀ pre post : Str, pre.length ≤ n →
      token u <:+: replaceScan (token k) v 0 (pre ++ (token u ++ post)) := by
  induction n with
  | zero =>
    intro pre post hlen
    have hpre : pre = [] := List.length_eq_zero.mp (Nat.le_zero.mp hlen)
    subst hpre
    rw [List.nil_append, replaceScan_append_of_no_match]
    · exact ⟨[], _, rfl⟩
    · intro p t hpt ht
      by_cases hp : p = []
      · subst hp
        rw [List.nil_append] at hpt
        subst hpt
        intro hpre
        exact hne (token_prefix_token k u post hk hu hpre)
      · exact token_not_prefix_inside k u p t post hu hpt hp ht
  | succ n ih =>
    intro pre post hlen
    cases pre with
    | nil => exact ih [] post (Nat.zero_le _)
    | cons c pre1 =>
      by_cases hm : token k <+: c :: (pre1 ++ (token u ++ post))
      · obtain ⟨pre2, hpre2⟩ := token_prefix_cover k (c :: pre1) (u ++ ['}', '}'] ++ post) hk
          (by simp) (by simpa [token] using hm)
        rw [hpre2, List.append_assoc, replaceScan_prefix _ _ _ (token_ne_nil k)]
        have hlen2 : pre2.length ≤ n := by
          have := congrArg List.length hpre2
          simp [token] at this hlen
          omega
        obtain ⟨a, b, hab⟩ := ih pre2 post hlen2
        exact ⟨v ++ a, b, by rw [← hab]; simp⟩
      · show token u <:+: replaceScan (token k) v 0 (c :: (pre1 ++ (token u ++ post)))
        rw [replaceScan_cons_of_no_match _ _ _ _ hm]
        have hlen2 : pre1.length ≤ n := by simpa using hlen
        obtain ⟨a, b, hab⟩ := ih pre1 post hlen2
        exact ⟨c :: a, b, by rw [← hab]; simp⟩

theorem ReplaceAll_keeps_token (k u v s : Str) (hk : braceFree k) (hu : braceFree u)
    (hne : k ≠ u) (h : token u <:+: s) : token u <:+: ReplaceAll s (token k) v := by
  obtain ⟨pre, post, rfl⟩ := h
  rw [ReplaceAll_token, List.append_assoc]
  exact replaceScan_keeps_token k u v hk hu hne pre.length pre post (Nat.le_refl _)

theorem resolveURL_keeps_token (vars : List (Str × Str)) (u url : Str) (hu : braceFree u)
    (hvars : ∀ kv ∈ vars, braceFree kv.1 ∧ kv.1 ≠ u) (h : token u <:+: url) :
    token u <:+: resolveURL vars url := by
  induction vars generalizing url with
  | nil => exact h
  | cons kv vars ih =>
    have hkv := hvars kv (by simp)
    exact ih _ (fun kv1 h1 => hvars kv1 (List.mem_cons_of_mem _ h1))
      (ReplaceAll_keeps_token kv.1 u kv.2 url hkv.1 hu hkv.2 h)

theorem literal_no_match (k s rest : Str) (hs : braceFree s) :
    ∀ p t, s = p ++ t → t ≠ [] → ¬ token k <+: t ++ rest := by
  intro p t hpt ht hpre
  cases t with
  | nil => exact ht rfl
  | cons a t1 =>
    simp only [token, List.cons_append, List.cons_prefix_cons] at hpre
    exact (hs a (by rw [hpt]; simp)).1 hpre.1.symm

theorem replaceScan_seg (k v : Str) (seg : Seg) (rest : Str) (hk : braceFree k)
    (hseg : seg.wellFormed) :
    replaceScan (token k) v 0 (seg.render ++ rest)
      = (seg.fillOne k v).render ++ replaceScan (token k) v 0 rest := by
  cases seg with
  | lit s =>
    exact replaceScan_append_of_no_match _ _ _ _ (literal_no_match k s rest hseg)
  | tok n =>
    by_cases hkn : k = n
    · subst hkn
      simp only [Seg.fillOne, Seg.render, if_true]
      exact replaceScan_prefix _ _ _ (token_ne_nil k)
    · simp only [Seg.fillOne, Seg.render, hkn, if_false]
      apply replaceScan_append_of_no_match
      intro p t hpt ht
      by_cases hp : p = []
      · subst hp
        rw [List.nil_append] at hpt
        subst hpt
        intro hpre
        exact hkn (token_prefix_token k n rest hk hseg hpre)
      · exact token_not_prefix_inside k n p t rest hseg hpt hp ht

theorem replaceScan_render (k v : Str) (segs : List Seg) (hk : braceFree k)
    (hsegs : ∀ seg ∈ segs, seg.wellFormed) :
    replaceScan (token k) v 0 (render segs) = render (segs.map (Seg.fillOne k v)) := by
  induction segs with
  | nil => rfl
  | cons seg segs ih =>
    simp only [render, List.map_cons]
    rw [replaceScan_seg k v seg _ hk (hsegs seg (by simp)),
      ih (fun sg h => hsegs sg (List.mem_cons_of_mem _ h))]

theorem fillOne_wellFormed (k v : Str) (hv : braceFree v) (seg : Seg) (h : seg.wellFormed) :
    (seg.fillOne k v).wellFormed := by
  cases seg with
  | lit s => exact h
  | tok n =>
    simp only [Seg.fillOne]
    split
    · exact hv
    · exact h

theorem fill_fillOne (k v : Str) (m : List (Str × Str)) (seg : Seg) :
    Seg.fill m (seg.fillOne k v) = Seg.fill ((k, v) :: m) seg := by
  cases seg with
  | lit s => rfl
  | tok n =>
    by_cases hkn : k = n
    · simp [Seg.fillOne, Seg.fill, hkn]
    · simp [Seg.fillOne, Seg.fill, hkn]

theorem resolveURL_render (m : List (Str × Str)) (segs : List Seg)
    (hm : ∀ kv ∈ m, braceFree kv.1 ∧ braceFree kv.2)
    (hsegs : ∀ seg ∈ segs, seg.wellFormed) :
    resolveURL m (render segs) = render (segs.map (Seg.fill m)) := by
  induction m generalizing segs with
  | nil =>
    have : segs.map (Seg.fill []) = segs := by
      induction segs with
      | nil => rfl
      | cons seg segs ih =>
        rw [List.map_cons, ih (fun sg h => hsegs sg (List.mem_cons_of_mem _ h))]
        cases seg <;> rfl
    rw [this]; rfl
  | cons kv m ih =>
    obtain ⟨k, v⟩ := kv
    have hkv := hm (k, v) (by simp)
    show resolveURL m (ReplaceAll (render segs) (token k) v) = _
    rw [ReplaceAll_token, replaceScan_render k v segs hkv.1 hsegs,
      ih _ (fun kv1 h1 => hm kv1 (List.mem_cons_of_mem _ h1))]
    · rw [List.map_map]
      congr 1
      apply List.map_congr_left
      intro seg _
      exact fill_fillOne k v m seg
    · intro sg hsg
      obtain ⟨seg, hseg, rfl⟩ := List.mem_map.mp hsg
      exact fillOne_wellFormed k v hkv.2 seg (hsegs seg hseg)

/-! ## The one-pass substitution on templates -/

theorem substituteScan_skip (m : List (Str × Str)) (n : Nat) (s : Str) :
    substituteScan m n s = substituteScan m 0 (s.drop n) := by
  induction s generalizing n with
  | nil => cases n <;> simp [substituteScan]
  | cons c cs ih =>
    cases n with
    | zero => rfl
    | succ k => simp only [substituteScan, List.drop_succ_cons]; exact ih k

theorem firstMatch_eq_none (m : List (Str × Str)) (s : Str)
    (h : ∀ kv ∈ m, ¬ token kv.1 <+: s) : firstMatch m s = none := by
  unfold firstMatch
  rw [List.find?_eq_none]
  intro kv hkv hp
  exact h kv hkv (List.isPrefixOf_iff_prefix.mp hp)

theorem substituteScan_append_of_no_match (m : List (Str × Str)) (seg rest : Str)
    (h : ∀ p t, seg = p ++ t → t ≠ [] → firstMatch m (t ++ rest) = none) :
    substituteScan m 0 (seg ++ rest) = seg ++ substituteScan m 0 rest := by
  induction seg with
  | nil => rfl
  | cons c cs ih =>
    have h0 : firstMatch m (c :: (cs ++ rest)) = none := h [] (c :: cs) rfl (by simp)
    show substituteScan m 0 (c :: (cs ++ rest)) = c :: (cs ++ substituteScan m 0 rest)
    rw [substituteScan, h0, ih]
    intro p t hpt ht
    exact h (c :: p) t (by rw [hpt]; rfl) ht

theorem firstMatch_token (m : List (Str × Str)) (n rest : Str) (hn : braceFree n)
    (hm : ∀ kv ∈ m, braceFree kv.1) :
    firstMatch m (token n ++ rest) = m.find? (fun kv => kv.1 = n) := by
  induction m with
  | nil => rfl
  | cons kv m ih =>
    have ih2 := ih (fun kv1 h1 => hm kv1 (List.mem_cons_of_mem _ h1))
    unfold firstMatch at ih2 ⊢
    by_cases hkn : kv.1 = n
    · have hp : (token kv.1).isPrefixOf (token n ++ rest) = true := by
        rw [List.isPrefixOf_iff_prefix, hkn]; exact List.prefix_append _ _
      simp [List.find?_cons, hp, hkn]
    · have hp : (token kv.1).isPrefixOf (token n ++ rest) = false := by
        rw [Bool.eq_false_iff]
        intro hp
        exact hkn (token_prefix_token kv.1 n rest (hm kv (by simp)) hn
          (List.isPrefixOf_iff_prefix.mp hp))
      simp only [List.find?_cons, hp, hkn, decide_False]
      exact ih2

theorem substituteScan_seg (m : List (Str × Str)) (seg : Seg) (rest : Str)
    (hm : ∀ kv ∈ m, braceFree kv.1) (hseg : seg.wellFormed) :
    substituteScan m 0 (seg.render ++ rest)
      = (seg.fill m).render ++ substituteScan m 0 rest := by
  cases seg with
  | lit s =>
    apply substituteScan_append_of_no_match
    intro p t hpt ht
    exact firstMatch_eq_none m _ (fun kv _ => literal_no_match kv.1 s rest hseg p t hpt ht)
  | tok n =>
    have hfm := firstMatch_token m n rest hseg hm
    cases hfind : m.find? (fun kv => kv.1 = n) with
    | some kv =>
      have hkn : kv.1 = n := by simpa using List.find?_some hfind
      rw [hfind] at hfm
      simp only [Seg.fill, hfind, Seg.render]
      show substituteScan m 0 ('{' :: ('{' :: (n ++ ['}', '}']) ++ rest)) = _
      have hfm2 : firstMatch m ('{' :: ('{' :: (n ++ ['}', '}']) ++ rest)) = some kv := hfm
      rw [substituteScan, hfm2]
      simp only []
      rw [substituteScan_skip, hkn]
      have : List.drop ((token n).length - 1) ('{' :: (n ++ ['}', '}']) ++ rest) = rest := by
        have h1 : (token n).length - 1 = ('{' :: (n ++ ['}', '}'])).length := by simp [token]
        rw [h1, List.drop_left]
      rw [this]
    | none =>
      rw [hfind] at hfm
      simp only [Seg.fill, hfind, Seg.render]
      apply substituteScan_append_of_no_match
      intro p t hpt ht
      by_cases hp : p = []
      · subst hp
        rw [List.nil_append] at hpt
        subst hpt
        exact hfm
      · exact firstMatch_eq_none m _
          (fun kv _ => token_not_prefix_inside kv.1 n p t rest hseg hpt hp ht)

theorem substituteTokens_render (m : List (Str × Str)) (segs : List Seg)
    (hm : ∀ kv ∈ m, braceFree kv.1) (hsegs : ∀ seg ∈ segs, seg.wellFormed) :
    substituteTokens m (render segs) = render (segs.map (Seg.fill m)) := by
  unfold substituteTokens
  induction segs with
  | nil => rfl
  | cons seg segs ih =>
    simp only [render, List.map_cons]
    rw [substituteScan_seg m seg _ hm (hsegs seg (by simp)),
      ih (fun sg h => hsegs sg (List.mem_cons_of_mem _ h))]

/-! ## Traversal orders of one map -/

theorem find_key_perm (m1 m2 : List (Str × Str)) (n : Str) (hp : m1.Perm m2)
    (hnd : (m1.map Prod.fst).Nodup) :
    m1.find? (fun kv => kv.1 = n) = m2.find? (fun kv => kv.1 = n) := by
  induction hp with
  | nil => rfl
  | cons x _ ih =>
    simp only [List.map_cons, List.nodup_cons] at hnd
    simp only [List.find?_cons]
    split
    · rfl
    · exact ih hnd.2
  | swap x y l =>
    simp only [List.map_cons, List.nodup_cons, List.mem_cons, not_or] at hnd
    simp only [List.find?_cons]
    by_cases hx : x.1 = n
    · by_cases hy : y.1 = n
      · exact absurd (hy.trans hx.symm) hnd.1.1
      · simp [hx, hy]
    · by_cases hy : y.1 = n
      · simp [hx, hy]
      · simp [hx, hy]
  | trans h1 _ ih1 ih2 =>
    exact (ih1 hnd).trans (ih2 ((h1.map Prod.fst).nodup_iff.mp hnd))

theorem fill_perm (m1 m2 : List (Str × Str)) (hp : m1.Perm m2)
    (hnd : (m1.map Prod.fst).Nodup) (seg : Seg) : seg.fill m1 = seg.fill m2 := by
  cases seg with
  | lit s => rfl
  | tok n => simp only [Seg.fill, find_key_perm m1 m2 n hp hnd]

/-! ## `ExecuteRequest` and its stages -/

/-- Attaching headers touches only the `Header` field. -/
theorem foldl_Set_eq (hm : List (Str × Str)) (req : Request) :
    hm.foldl (fun r kv => { r with Header := r.Header.Set kv.1 kv.2 }) req
      = { req with Header := setHeaders hm req.Header } := by
  induction hm generalizing req with
  | nil => rfl
  | cons kv hm ih =>
    simp only [List.foldl_cons, setHeaders]
    rw [ih]
    rfl

/-- `ExecuteRequest` in terms of its stages. -/
theorem ExecuteRequest_eq (w : World) (method url headers body : Str) :
    ExecuteRequest w method url headers body =
      match stageRequest w method url headers body with
      | .error err => ⟨none, some err, []⟩
      | .ok req =>
        match stageRespond w req with
        | .error err => ⟨none, some err, [req]⟩
        | .ok r => ⟨some r, none, [req]⟩ := by
  unfold ExecuteRequest stageRequest stageResolve stageRespond
  rcases hg : GetActiveEnvironment w.db with ⟨env, _ | e⟩
  · cases env with
    | none =>
      simp only []
      cases w.httpNewRequest method url with
      | some e => rfl
      | none =>
        simp only []
        by_cases hh : headers = []
        · simp only [hh, ne_eq, not_true_eq_false, if_false]
          cases w.clientDo _ with
          | error e => rfl
          | ok resp =>
            simp only []
            cases resp.Body with
            | error e => rfl
            | ok b =>
              simp only []
              cases w.jsonMarshal resp.Header <;> rfl
        · simp only [hh, ne_eq, not_false_eq_true, if_true]
          cases w.jsonUnmarshal headers with
          | error e => rfl
          | ok hm =>
            simp only [foldl_Set_eq]
            cases w.clientDo _ with
            | error e => rfl
            | ok resp =>
              simp only []
              cases resp.Body with
              | error e => rfl
              | ok b =>
                simp only []
                cases w.jsonMarshal resp.Header <;> rfl
    | some env =>
      simp only []
      cases w.jsonUnmarshal env.Variables with
      | error e => rfl
      | ok vars =>
        simp only []
        cases w.httpNewRequest method (resolveURL vars url) with
        | some e => rfl
        | none =>
          simp only []
          by_cases hh : headers = []
          · simp only [hh, ne_eq, not_true_eq_false, if_false]
            cases w.clientDo _ with
            | error e => rfl
            | ok resp =>
              simp only []
              cases resp.Body with
              | error e => rfl
              | ok b =>
                simp only []
                cases w.jsonMarshal resp.Header <;> rfl
          · simp only [hh, ne_eq, not_false_eq_true, if_true]
            cases w.jsonUnmarshal headers with
            | error e => rfl
            | ok hm =>
              simp only [foldl_Set_eq]
              cases w.clientDo _ with
              | error e => rfl
              | ok resp =>
                simp only []
                cases resp.Body with
                | error e => rfl
                | ok b =>
                  simp only []
                  cases w.jsonMarshal resp.Header <;> rfl
  · cases env <;> rfl

/-- The requests handed to `client.Do`: the one built by lines 262-298, if they
end without error. -/
theorem sent_eq (w : World) (method url headers body : Str) :
    (ExecuteRequest w method url headers body).sent =
      match stageRequest w method url headers body with
      | .error _ => []
      | .ok req => [req] := by
  rw [ExecuteRequest_eq]
  cases stageRequest w method url headers body with
  | error e => rfl
  | ok req =>
    simp only []
    cases stageRespond w req <;> rfl

theorem stageResolve_none (w : World) (url : Str)
    (h : GetActiveEnvironment w.db = (none, none)) : stageResolve w url = .ok url := by
  unfold stageResolve; rw [h]

theorem stageResolve_active (w : World) (url : Str) (env : Environment)
    (h : GetActiveEnvironment w.db = (some env, none)) :
    stageResolve w url =
      match w.jsonUnmarshal env.Variables with
      | .error err => .error err
      | .ok vars => .ok (resolveURL vars url) := by
  unfold stageResolve; rw [h]

/-- What a request that reached `client.Do` is made of. -/
theorem stageRequest_inv (w : World) (method url headers body : Str) (r : Request)
    (h : stageRequest w method url headers body = .ok r) :
    ∃ u, stageResolve w url = .ok u ∧ w.httpNewRequest method u = none ∧ r.URL = u ∧
      r.Body = body ∧ r.Method = (if method = [] then "GET".toList else method) ∧
      ((headers = [] ∧ r.Header = []) ∨
        (headers ≠ [] ∧
          ∃ hm, w.jsonUnmarshal headers = .ok hm ∧ r.Header = setHeaders hm [])) := by
  unfold stageRequest at h
  cases hres : stageResolve w url with
  | error e => rw [hres] at h; cases h
  | ok u =>
    rw [hres] at h
    simp only [] at h
    cases hnew : w.httpNewRequest method u with
    | some e => rw [hnew] at h; cases h
    | none =>
      rw [hnew] at h
      simp only [] at h
      by_cases hh : headers = []
      · simp only [hh, ne_eq, not_true_eq_false, if_false, Except.ok.injEq] at h
        subst h
        exact ⟨u, rfl, hnew, rfl, rfl, rfl, Or.inl ⟨hh, rfl⟩⟩
      · simp only [hh, ne_eq, not_false_eq_true, if_true] at h
        cases hun : w.jsonUnmarshal headers with
        | error e => rw [hun] at h; cases h
        | ok hm =>
          rw [hun] at h
          simp only [Except.ok.injEq] at h
          subst h
          exact ⟨u, rfl, hnew, rfl, rfl, rfl, Or.inr ⟨hh, hm, rfl, rfl⟩⟩

/-- When resolution, request construction and header parsing succeed, a request
is built. -/
theorem stageRequest_ok (w : World) (method url headers body u : Str)
    (hres : stageResolve w url = .ok u) (hnew : w.httpNewRequest method u = none)
    (hh : headers = [] ∨ ∃ hm, w.jsonUnmarshal headers = .ok hm) :
    ∃ r, stageRequest w method url headers body = .ok r ∧ r.URL = u ∧ r.Body = body := by
  unfold stageRequest
  rw [hres]
  simp only []
  rw [hnew]
  simp only []
  by_cases hne : headers = []
  · simp only [hne, ne_eq, not_true_eq_false, if_false]
    exact ⟨_, rfl, rfl, rfl⟩
  · rcases hh with hh | ⟨hm, hhm⟩
    · exact absurd hh hne
    · simp only [hne, ne_eq, not_false_eq_true, if_true, hhm]
      exact ⟨_, rfl, rfl, rfl⟩

/-- A result map, when one is built, has the six keys. -/
theorem stageRespond_keys (w : World) (req : Request) (r : ResultMap)
    (h : stageRespond w req = .ok r) : r.map Prod.fst = resultKeys := by
  unfold stageRespond at h
  cases hdo : w.clientDo req with
  | error e => rw [hdo] at h; cases h
  | ok resp =>
    rw [hdo] at h
    simp only [] at h
    cases hb : resp.Body with
    | error e => rw [hb] at h; cases h
    | ok b =>
      rw [hb] at h
      simp only [] at h
      cases hj : w.jsonMarshal resp.Header with
      | error e => rw [hj] at h; cases h
      | ok hb2 =>
        rw [hj] at h
        simp only [Except.ok.injEq] at h
        subst h
        rfl

/-- An entry of a header map after an assignment is an old entry or the new one. -/
theorem mem_assign (h : Header) (k : Str) (vs : List Str) (entry : Str × List Str)
    (hmem : entry ∈ Header.assign h k vs) : entry ∈ h ∨ entry = (k, vs) := by
  induction h with
  | nil =>
    simp only [Header.assign, List.mem_singleton] at hmem
    exact Or.inr hmem
  | cons kv h ih =>
    obtain ⟨k1, vs1⟩ := kv
    simp only [Header.assign] at hmem
    split at hmem
    · rcases List.mem_cons.mp hmem with hm1 | hm1
      · exact Or.inr hm1
      · exact Or.inl (List.mem_cons_of_mem _ hm1)
    · rcases List.mem_cons.mp hmem with hm1 | hm1
      · exact Or.inl (by rw [hm1]; exact List.mem_cons_self _ _)
      · rcases ih hm1 with h2 | h2
        · exact Or.inl (List.mem_cons_of_mem _ h2)
        · exact Or.inr h2

/-- Every header attached by the loop is an entry of the parsed payload: its
canonical key with its value, verbatim. -/
theorem mem_setHeaders (hm : List (Str × Str)) (h : Header) (entry : Str × List Str)
    (hmem : entry ∈ setHeaders hm h) :
    entry ∈ h ∨ ∃ kv ∈ hm, entry = (CanonicalMIMEHeaderKey kv.1, [kv.2]) := by
  induction hm generalizing h with
  | nil => exact Or.inl hmem
  | cons kv hm ih =>
    have hstep : setHeaders (kv :: hm) h = setHeaders hm (h.Set kv.1 kv.2) := rfl
    rw [hstep] at hmem
    rcases ih _ hmem with h1 | ⟨kv1, hkv1, h1⟩
    · rcases mem_assign h _ _ entry h1 with h2 | h2
      · exact Or.inl h2
      · exact Or.inr ⟨kv, List.mem_cons_self _ _, h2⟩
    · exact Or.inr ⟨kv1, List.mem_cons_of_mem _ hkv1, h1⟩

/-! ## Properties of the specification -/

/-- C1 (refuted as stated): with the two variables `a` and `b` whose values are
each other's placeholder, and the URL `{{a}}{{b}}`, the input URL with the
tokens of both keys replaced by their values is `{{b}}{{a}}`, but the URL handed
to the transport is `{{a}}{{a}}` when the loop visits `a` first and `{{b}}{{b}}`
when it visits `b` first. -/
theorem C1_counterexample :
    ((ExecuteRequest (worldVisiting varsCross varsCross) methodGET (token nameA ++ token nameB)
        [] []).sent.map Request.URL = [token nameA ++ token nameA] ∧
      (ExecuteRequest (worldVisiting varsCross varsCross.reverse) methodGET
        (token nameA ++ token nameB) [] []).sent.map Request.URL
        = [token nameB ++ token nameB]) ∧
    (substituteTokens varsCross (token nameA ++ token nameB) = token nameB ++ token nameA ∧
      substituteTokens varsCross.reverse (token nameA ++ token nameB)
        = token nameB ++ token nameA) ∧
    token nameA ++ token nameA ≠ substituteTokens varsCross (token nameA ++ token nameB) ∧
    token nameB ++ token nameB ≠ substituteTokens varsCross (token nameA ++ token nameB) := by
  decide

/-- C1 (amended): when an environment is active and its variables parse to a
mapping whose keys and values contain no brace character, then for every URL
that is a well-formed template (brace characters only in placeholders `{{name}}`
with brace-free names) the URL handed to the transport is the input URL with
every placeholder of every key replaced by the key's value and everything else
unchanged, whatever the order the loop visits the variables in; and such a
request is sent when `http.NewRequest` accepts that URL and the header payload
is empty or parses. -/
theorem C1_template_tokens_replaced (w : World) (method headers body : Str)
    (env : Environment) (m : List (Str × Str)) (segs : List Seg)
    (hactive : GetActiveEnvironment w.db = (some env, none))
    (hvars : w.jsonUnmarshal env.Variables = .ok m)
    (hm : ∀ kv ∈ m, braceFree kv.1 ∧ braceFree kv.2)
    (hsegs : ∀ seg ∈ segs, seg.wellFormed) :
    (∀ r ∈ (ExecuteRequest w method (render segs) headers body).sent,
      r.URL = substituteTokens m (render segs) ∧ r.URL = render (segs.map (Seg.fill m))) ∧
    (w.httpNewRequest method (render (segs.map (Seg.fill m))) = none →
      (headers = [] ∨ ∃ hm, w.jsonUnmarshal headers = .ok hm) →
      ∃ r, (ExecuteRequest w method (render segs) headers body).sent = [r]) := by
  have hkeys : ∀ kv ∈ m, braceFree kv.1 := fun kv h => (hm kv h).1
  have hloop := resolveURL_render m segs hm hsegs
  have hspec := substituteTokens_render m segs hkeys hsegs
  have hres : stageResolve w (render segs) = .ok (render (segs.map (Seg.fill m))) := by
    rw [stageResolve_active w _ env hactive, hvars, ← hloop]
  constructor
  · intro r hr
    rw [sent_eq] at hr
    cases hreq : stageRequest w method (render segs) headers body with
    | error e => rw [hreq] at hr; simp at hr
    | ok req =>
      rw [hreq] at hr
      simp only [List.mem_singleton] at hr
      subst hr
      obtain ⟨u, hu, _, hurl, _⟩ := stageRequest_inv w method _ headers body r hreq
      rw [hres] at hu
      cases hu
      exact ⟨hurl.trans hspec.symm, hurl⟩
  · intro hnew hh
    obtain ⟨r, hr, _⟩ := stageRequest_ok w method _ headers body _ hres hnew hh
    exact ⟨r, by rw [sent_eq, hr]⟩

/-- C1 (amended), at the mapping `a = api.test`, `b = 42` and the template
`http://{{a}}/{{b}}/{{u}}`: the URL sent is `http://api.test/42/{{u}}`. -/
theorem C1_template_tokens_replaced_witness :
    (ExecuteRequest (worldWith varsPlain) methodGET (render sampleTemplate) [] []).sent
      = [⟨methodGET, "http://api.test/42/".toList ++ token nameU, [], []⟩] ∧
    (⟨methodGET, "http://api.test/42/".toList ++ token nameU, [], []⟩ : Request).URL
      = substituteTokens varsPlain (render sampleTemplate) ∧
    (⟨methodGET, "http://api.test/42/".toList ++ token nameU, [], []⟩ : Request).URL
      = render (sampleTemplate.map (Seg.fill varsPlain)) :=
  ⟨by decide,
   (C1_template_tokens_replaced (worldWith varsPlain) methodGET [] []
    (sampleEnv (jsonObject varsPlain)) varsPlain sampleTemplate (by decide) rfl (by decide)
    (by decide)).1 ⟨methodGET, "http://api.test/42/".toList ++ token nameU, [], []⟩
    (by decide)⟩

/-- C2: when `GetActiveEnvironment` reports no active environment, every request
handed to the transport carries the caller's URL unchanged, whatever tokens it
contains; and the call does not fail on that account: if `http.NewRequest`
accepts the caller's URL and the header payload is empty or parses, exactly one
request is dispatched, with that URL, and when the exchange then completes the
call returns a result and no error. -/
theorem C2_no_active_environment_identity (w : World) (method url headers body : Str)
    (hnone : GetActiveEnvironment w.db = (none, none)) :
    (∀ r ∈ (ExecuteRequest w method url headers body).sent, r.URL = url) ∧
    (w.httpNewRequest method url = none →
      (headers = [] ∨ ∃ hm, w.jsonUnmarshal headers = .ok hm) →
      ∃ r, (ExecuteRequest w method url headers body).sent = [r] ∧ r.URL = url ∧
        (∀ resp respBody headerBytes, w.clientDo r = .ok resp → resp.Body = .ok respBody →
          w.jsonMarshal resp.Header = .ok headerBytes →
          (ExecuteRequest w method url headers body).err = none ∧
          (ExecuteRequest w method url headers body).result.isSome = true)) := by
  have hres := stageResolve_none w url hnone
  constructor
  · intro r hr
    rw [sent_eq] at hr
    cases hreq : stageRequest w method url headers body with
    | error e => rw [hreq] at hr; simp at hr
    | ok req =>
      rw [hreq] at hr
      simp only [List.mem_singleton] at hr
      subst hr
      obtain ⟨u, hu, _, hurl, _⟩ := stageRequest_inv w method url headers body r hreq
      rw [hres] at hu
      cases hu
      exact hurl
  · intro hnew hh
    obtain ⟨r, hr, hurl, _⟩ := stageRequest_ok w method url headers body url hres hnew hh
    refine ⟨r, ?_, hurl, ?_⟩
    · rw [sent_eq, hr]
    · intro resp respBody headerBytes hdo hbody hmar
      rw [ExecuteRequest_eq, hr]
      simp [stageRespond, hdo, hbody, hmar]

/-- C2, at a store whose only environment is not flagged active: a URL made of
two tokens reaches the transport unchanged. -/
theorem C2_no_active_environment_identity_witness :
    (ExecuteRequest worldNoActive methodGET (token nameA ++ token nameB) []
      "hi".toList).sent = [⟨methodGET, token nameA ++ token nameB, "hi".toList, []⟩] ∧
    (⟨methodGET, token nameA ++ token nameB, "hi".toList, []⟩ : Request).URL
      = token nameA ++ token nameB :=
  ⟨by decide,
   (C2_no_active_environment_identity worldNoActive methodGET (token nameA ++ token nameB) []
    "hi".toList (by decide)).1 ⟨methodGET, token nameA ++ token nameB, "hi".toList, []⟩
    (by decide)⟩

/-- C3 (refuted as stated): the URL `{{{{u}}` contains the token `{{u}}`, and `u`
is not a key of the mapping whose only key is `{{u`; the resolved URL handed to
the transport is `X`, which does not contain the token. -/
theorem C3_counterexample :
    token nameU <:+: token ('{' :: '{' :: nameU) ∧
    nameU ∉ varsBrace.map Prod.fst ∧
    (ExecuteRequest (worldWith varsBrace) methodGET (token ('{' :: '{' :: nameU)) []
      []).sent.map Request.URL = [['X']] ∧
    ¬ token nameU <:+: ['X'] := by
  refine ⟨⟨['{', '{'], [], rfl⟩, by decide, by decide, ?_⟩
  intro h
  have := h.length_le
  simp [token, nameU] at this

/-- C3 (amended): when an environment is active and its variables parse to a
mapping all of whose keys are free of brace characters and differ from
`unknown`, itself free of brace characters, then for every URL that contains
the token `{{unknown}}` every request handed to the transport still contains
that token in its URL; and no error is raised on that account: when
`http.NewRequest` accepts the resolved URL and the header payload is empty or
parses, a request is sent. -/
theorem C3_unknown_token_kept (w : World) (method url headers body : Str)
    (env : Environment) (m : List (Str × Str)) (unknown : Str)
    (hactive : GetActiveEnvironment w.db = (some env, none))
    (hvars : w.jsonUnmarshal env.Variables = .ok m)
    (hu : braceFree unknown)
    (hkeys : ∀ kv ∈ m, braceFree kv.1 ∧ kv.1 ≠ unknown)
    (hin : token unknown <:+: url) :
    token unknown <:+: resolveURL m url ∧
    (∀ r ∈ (ExecuteRequest w method url headers body).sent, token unknown <:+: r.URL) ∧
    (w.httpNewRequest method (resolveURL m url) = none →
      (headers = [] ∨ ∃ hm, w.jsonUnmarshal headers = .ok hm) →
      ∃ r, (ExecuteRequest w method url headers body).sent = [r] ∧
        token unknown <:+: r.URL) := by
  have hkeep := resolveURL_keeps_token m unknown url hu hkeys hin
  have hres : stageResolve w url = .ok (resolveURL m url) := by
    rw [stageResolve_active w _ env hactive, hvars]
  refine ⟨hkeep, ?_, ?_⟩
  · intro r hr
    rw [sent_eq] at hr
    cases hreq : stageRequest w method url headers body with
    | error e => rw [hreq] at hr; simp at hr
    | ok req =>
      rw [hreq] at hr
      simp only [List.mem_singleton] at hr
      subst hr
      obtain ⟨u, hu2, _, hurl, _⟩ := stageRequest_inv w method _ headers body r hreq
      rw [hres] at hu2
      cases hu2
      rw [hurl]
      exact hkeep
  · intro hnew hh
    obtain ⟨r, hr, hurl, _⟩ := stageRequest_ok w method _ headers body _ hres hnew hh
    exact ⟨r, by rw [sent_eq, hr], by rw [hurl]; exact hkeep⟩

/-- C3 (amended), at the mapping `a = api.test`, `b = 42` and the URL
`http://{{a}}/{{b}}/{{u}}`: the URL sent, `http://api.test/42/{{u}}`, still
contains `{{u}}`. -/
theorem C3_unknown_token_kept_witness :
    (ExecuteRequest (worldWith varsPlain) methodGET (render sampleTemplate) [] []).sent
      = [⟨methodGET, "http://api.test/42/".toList ++ token nameU, [], []⟩] ∧
    token nameU <:+:
      (⟨methodGET, "http://api.test/42/".toList ++ token nameU, [], []⟩ : Request).URL :=
  ⟨by decide,
   (C3_unknown_token_kept (worldWith varsPlain) methodGET (render sampleTemplate) [] []
    (sampleEnv (jsonObject varsPlain)) varsPlain nameU (by decide) rfl (by decide) (by decide)
    ⟨"http://".toList ++ token nameA ++ ['/'] ++ token nameB ++ ['/'], [], by decide⟩).2.1
    ⟨methodGET, "http://api.test/42/".toList ++ token nameU, [], []⟩ (by decide)⟩

/-- C4 (refuted as stated): the mapping `a = {{b}}`, `b = x` and the URL `{{a}}`:
the same stored environment resolves to `x` when the loop visits `a` first and
to `{{b}}` when it visits `b` first. -/
theorem C4_counterexample :
    varsChain.reverse.Perm varsChain ∧
    (worldVisiting varsChain varsChain).db = (worldVisiting varsChain varsChain.reverse).db ∧
    (ExecuteRequest (worldVisiting varsChain varsChain) methodGET (token nameA) []
      []).sent.map Request.URL = [['x']] ∧
    (ExecuteRequest (worldVisiting varsChain varsChain.reverse) methodGET (token nameA) []
      []).sent.map Request.URL = [token nameB] ∧
    resolveURL varsChain (token nameA) ≠ resolveURL varsChain.reverse (token nameA) := by
  refine ⟨List.Perm.swap _ _ _, rfl, by decide, by decide, by decide⟩

/-- C4 (amended): for a well-formed template and a mapping whose keys and values
contain no brace character, any two traversal orders of the mapping (two
permutations of its entries, the keys being distinct) make the replacement loop
return the same URL, and so two executions that read the same active
environment and visit its variables in these two orders hand the same URL to
the transport; and for a fixed traversal order resolution is deterministic for
every URL and every mapping: two executions that read the same active
environment and visit its variables in the same order hand the same URL to the
transport. -/
theorem C4_order_independent_on_templates (m1 m2 : List (Str × Str)) (segs : List Seg)
    (hperm : m1.Perm m2) (hnd : (m1.map Prod.fst).Nodup)
    (hm : ∀ kv ∈ m1, braceFree kv.1 ∧ braceFree kv.2)
    (hsegs : ∀ seg ∈ segs, seg.wellFormed) :
    resolveURL m1 (render segs) = resolveURL m2 (render segs) ∧
    (∀ (w1 w2 : World) (env : Environment) (method headers body : Str),
      GetActiveEnvironment w1.db = (some env, none) →
      GetActiveEnvironment w2.db = (some env, none) →
      w1.jsonUnmarshal env.Variables = .ok m1 → w2.jsonUnmarshal env.Variables = .ok m2 →
      ∀ r1 ∈ (ExecuteRequest w1 method (render segs) headers body).sent,
      ∀ r2 ∈ (ExecuteRequest w2 method (render segs) headers body).sent,
        r1.URL = r2.URL) ∧
    (∀ (w1 w2 : World) (env : Environment) (m : List (Str × Str))
      (method url headers body : Str),
      GetActiveEnvironment w1.db = (some env, none) →
      GetActiveEnvironment w2.db = (some env, none) →
      w1.jsonUnmarshal env.Variables = .ok m → w2.jsonUnmarshal env.Variables = .ok m →
      ∀ r1 ∈ (ExecuteRequest w1 method url headers body).sent,
      ∀ r2 ∈ (ExecuteRequest w2 method url headers body).sent,
        r1.URL = r2.URL) := by
  have hm2 : ∀ kv ∈ m2, braceFree kv.1 ∧ braceFree kv.2 :=
    fun kv h => hm kv (hperm.mem_iff.mpr h)
  have hloop : resolveURL m1 (render segs) = resolveURL m2 (render segs) := by
    rw [resolveURL_render m1 segs hm hsegs, resolveURL_render m2 segs hm2 hsegs]
    congr 1
    apply List.map_congr_left
    intro seg _
    exact fill_perm m1 m2 hperm hnd seg
  have key : ∀ (w : World) (env : Environment) (m : List (Str × Str))
      (method url headers body : Str) (r : Request),
      GetActiveEnvironment w.db = (some env, none) → w.jsonUnmarshal env.Variables = .ok m →
      r ∈ (ExecuteRequest w method url headers body).sent →
      r.URL = resolveURL m url := by
    intro w env m method url headers body r hact hv hr
    rw [sent_eq] at hr
    cases hreq : stageRequest w method url headers body with
    | error e => rw [hreq] at hr; simp at hr
    | ok req =>
      rw [hreq] at hr
      simp only [List.mem_singleton] at hr
      subst hr
      obtain ⟨u, hu, _, hurl, _⟩ := stageRequest_inv w method _ headers body r hreq
      rw [stageResolve_active w _ env hact, hv] at hu
      cases hu
      exact hurl
  refine ⟨hloop, ?_, ?_⟩
  · intro w1 w2 env method headers body h1 h2 hv1 hv2 r1 hr1 r2 hr2
    rw [key w1 env m1 _ _ _ _ r1 h1 hv1 hr1, key w2 env m2 _ _ _ _ r2 h2 hv2 hr2, hloop]
  · intro w1 w2 env m method url headers body h1 h2 hv1 hv2 r1 hr1 r2 hr2
    rw [key w1 env m _ _ _ _ r1 h1 hv1 hr1, key w2 env m _ _ _ _ r2 h2 hv2 hr2]

/-- C4 (amended), at the mapping `a = api.test`, `b = 42`, visited in both
orders, and the template `http://{{a}}/{{b}}/{{u}}`. -/
theorem C4_order_independent_on_templates_witness :
    resolveURL varsPlain (render sampleTemplate)
      = resolveURL varsPlain.reverse (render sampleTemplate) :=
  (C4_order_independent_on_templates varsPlain varsPlain.reverse sampleTemplate
    (List.Perm.swap _ _ _) (by decide) (by decide) (by decide)).1

/-- C5: a non-empty header payload that `json.Unmarshal` rejects makes
`ExecuteRequest` return no result and an error with no request handed to the
transport; and an empty header payload is never given to the parser: the whole
outcome is the same for every parser that agrees on the active environment's
variables text. -/
theorem C5_malformed_headers_fail_before_transport (w : World)
    (method url headers body : Str) :
    (headers ≠ [] → ∀ e, w.jsonUnmarshal headers = .error e →
      (ExecuteRequest w method url headers body).result = none ∧
      (∃ e1, (ExecuteRequest w method url headers body).err = some e1) ∧
      (ExecuteRequest w method url headers body).sent = []) ∧
    (∀ f : Str → Except Error (List (Str × Str)),
      (∀ env, (GetActiveEnvironment w.db).1 = some env →
        f env.Variables = w.jsonUnmarshal env.Variables) →
      ExecuteRequest { w with jsonUnmarshal := f } method url [] body
        = ExecuteRequest w method url [] body) := by
  constructor
  · intro hne e he
    rw [ExecuteRequest_eq]
    cases hreq : stageRequest w method url headers body with
    | error e1 => exact ⟨rfl, ⟨e1, rfl⟩, rfl⟩
    | ok r =>
      obtain ⟨u, _, _, _, _, _, hh⟩ := stageRequest_inv w method url headers body r hreq
      rcases hh with ⟨hh, _⟩ | ⟨_, hm, hhm, _⟩
      · exact absurd hh hne
      · rw [he] at hhm; cases hhm
  · intro f hf
    unfold ExecuteRequest
    show (match GetActiveEnvironment w.db with
      | (_, some err) => _
      | (activeEnv, none) => _) = _
    rcases hg : GetActiveEnvironment w.db with ⟨env, _ | e⟩
    · cases env with
      | none => rfl
      | some env =>
        have := hf env (by rw [hg])
        simp only [this, ne_eq, not_true_eq_false, if_false]
    · rfl

/-- C5, at a header payload that is not JSON: no result, an error, nothing sent. -/
theorem C5_malformed_headers_fail_before_transport_witness :
    (ExecuteRequest (worldWith varsPlain) methodGET (token nameA) "Accept".toList
        "hi".toList).result = none ∧
    (∃ e1, (ExecuteRequest (worldWith varsPlain) methodGET (token nameA) "Accept".toList
        "hi".toList).err = some e1) ∧
    (ExecuteRequest (worldWith varsPlain) methodGET (token nameA) "Accept".toList
        "hi".toList).sent = [] :=
  (C5_malformed_headers_fail_before_transport (worldWith varsPlain) methodGET (token nameA)
    "Accept".toList "hi".toList).1 (by decide) _ rfl

/-- C6: when an environment is active and `json.Unmarshal` rejects its variables
text, `ExecuteRequest` returns no result and that parse error, and hands nothing
to the transport, for every method, URL, header payload and body; the outcome
does not mention the URL at all. -/
theorem C6_malformed_variables_fail (w : World) (method url headers body : Str)
    (env : Environment) (e : Error)
    (hactive : GetActiveEnvironment w.db = (some env, none))
    (hbad : w.jsonUnmarshal env.Variables = .error e) :
    (ExecuteRequest w method url headers body).result = none ∧
    (ExecuteRequest w method url headers body).err = some e ∧
    (ExecuteRequest w method url headers body).sent = [] := by
  have hres : stageResolve w url = .error e := by
    rw [stageResolve_active w url env hactive, hbad]
  have hreq : stageRequest w method url headers body = .error e := by
    unfold stageRequest; rw [hres]
  rw [ExecuteRequest_eq, hreq]
  exact ⟨rfl, rfl, rfl⟩

/-- C6, at an active environment whose variables text is `oops`. -/
theorem C6_malformed_variables_fail_witness :
    (ExecuteRequest (sampleWorld [sampleEnv "oops".toList] [] sampleResponse)
      methodGET (token nameA) [] "hi".toList).sent = [] :=
  (C6_malformed_variables_fail (sampleWorld [sampleEnv "oops".toList] [] sampleResponse)
    methodGET (token nameA) [] "hi".toList (sampleEnv "oops".toList) _ (by decide) rfl).2.2

/-- C7: every outcome of `ExecuteRequest` is all-or-nothing: either a result map
with the six keys and no error, or no result and an error; in particular, when
`client.Do` fails for the request that was sent, or when the body of the
response it returned cannot be read, there is no result and the error is
returned. -/
theorem C7_all_or_nothing (w : World) (method url headers body : Str) :
    ((∃ r, (ExecuteRequest w method url headers body).result = some r ∧
          r.map Prod.fst = resultKeys ∧
          (ExecuteRequest w method url headers body).err = none) ∨
      ((ExecuteRequest w method url headers body).result = none ∧
          ∃ e, (ExecuteRequest w method url headers body).err = some e)) ∧
    (∀ req e, req ∈ (ExecuteRequest w method url headers body).sent →
      w.clientDo req = .error e →
      (ExecuteRequest w method url headers body).result = none ∧
      (ExecuteRequest w method url headers body).err = some e) ∧
    (∀ req resp e, req ∈ (ExecuteRequest w method url headers body).sent →
      w.clientDo req = .ok resp → resp.Body = .error e →
      (ExecuteRequest w method url headers body).result = none ∧
      (ExecuteRequest w method url headers body).err = some e) := by
  rw [sent_eq, ExecuteRequest_eq]
  cases hreq : stageRequest w method url headers body with
  | error e0 =>
    refine ⟨Or.inr ⟨rfl, e0, rfl⟩, ?_, ?_⟩
    · intro req e hmem; simp at hmem
    · intro req resp e hmem; simp at hmem
  | ok r0 =>
    simp only [List.mem_singleton]
    refine ⟨?_, ?_, ?_⟩
    · cases hresp : stageRespond w r0 with
      | error e1 => exact Or.inr ⟨rfl, e1, rfl⟩
      | ok r => exact Or.inl ⟨r, rfl, stageRespond_keys w r0 r hresp, rfl⟩
    · intro req e hmem hdo
      subst hmem
      simp [stageRespond, hdo]
    · intro req resp e hmem hdo hbody
      subst hmem
      simp [stageRespond, hdo, hbody]

/-- C7, at a transport that answers 200 with headers but whose body cannot be
read: no result, and the read error. -/
theorem C7_all_or_nothing_witness :
    (ExecuteRequest (sampleWorld [] [] { sampleResponse with
        Body := .error (.other "unexpected EOF") }) methodGET "http://h".toList [] []).result
      = none ∧
    (ExecuteRequest (sampleWorld [] [] { sampleResponse with
        Body := .error (.other "unexpected EOF") }) methodGET "http://h".toList [] []).err
      = some (.other "unexpected EOF") :=
  (C7_all_or_nothing (sampleWorld [] [] { sampleResponse with
      Body := .error (.other "unexpected EOF") }) methodGET "http://h".toList [] []).2.2
    ⟨methodGET, "http://h".toList, [], []⟩ _ _ (by decide) rfl rfl

/-- C8: whenever the steps before dispatch succeed (the lookup reports no active
environment, or an active one whose variables parse; `http.NewRequest` accepts
the resolved URL; the header payload is empty or parses), the request is handed
to the transport, and for every response `client.Do` returns for it, whatever
its status code, once the exchange completes (the body is read and the headers
are serialised) `ExecuteRequest` returns no error and a result whose `status` is
that response's status code.  The same holds for any request that was sent; and
replacing the status code of the transport's response by any other integer
never changes the error returned. -/
theorem C8_status_code_is_not_an_error (w : World) (method url headers body : Str) :
    (∀ (u : Str) (hdr : Header) (resp : Response) (respBody headerBytes : Str),
      ((GetActiveEnvironment w.db = (none, none) ∧ u = url) ∨
        ∃ env m, GetActiveEnvironment w.db = (some env, none) ∧
          w.jsonUnmarshal env.Variables = .ok m ∧ u = resolveURL m url) →
      w.httpNewRequest method u = none →
      ((headers = [] ∧ hdr = []) ∨
        (headers ≠ [] ∧ ∃ hm, w.jsonUnmarshal headers = .ok hm ∧ hdr = setHeaders hm [])) →
      w.clientDo ⟨if method = [] then "GET".toList else method, u, body, hdr⟩ = .ok resp →
      resp.Body = .ok respBody →
      w.jsonMarshal resp.Header = .ok headerBytes →
      (ExecuteRequest w method url headers body).sent
        = [⟨if method = [] then "GET".toList else method, u, body, hdr⟩] ∧
      (ExecuteRequest w method url headers body).err = none ∧
      ∃ r, (ExecuteRequest w method url headers body).result = some r ∧
        r.lookup "status".toList = some (.int resp.StatusCode)) ∧
    (∀ req resp respBody headerBytes,
      req ∈ (ExecuteRequest w method url headers body).sent →
      w.clientDo req = .ok resp → resp.Body = .ok respBody →
      w.jsonMarshal resp.Header = .ok headerBytes →
      (ExecuteRequest w method url headers body).err = none ∧
      ∃ r, (ExecuteRequest w method url headers body).result = some r ∧
        r.lookup "status".toList = some (.int resp.StatusCode)) ∧
    (∀ code : Int,
      (ExecuteRequest (w.withStatusCode code) method url headers body).err
        = (ExecuteRequest w method url headers body).err) := by
  refine ⟨?_, ?_, ?_⟩
  · intro u hdr resp respBody headerBytes hres hnew hh hdo hbody hmar
    have hstage : stageResolve w url = .ok u := by
      rcases hres with ⟨hnone, hu⟩ | ⟨env, m, hact, hvars, hu⟩
      · rw [hu]; exact stageResolve_none w url hnone
      · rw [stageResolve_active w url env hact, hvars, hu]
    have hreq : stageRequest w method url headers body
        = .ok ⟨if method = [] then "GET".toList else method, u, body, hdr⟩ := by
      unfold stageRequest
      rw [hstage]
      simp only []
      rw [hnew]
      rcases hh with ⟨hempty, hhdr⟩ | ⟨hne, hm, hparse, hhdr⟩
      · simp only [hempty, ne_eq, not_true_eq_false, if_false, hhdr]
      · simp only [hne, ne_eq, not_false_eq_true, if_true, hparse, hhdr]
    rw [sent_eq, ExecuteRequest_eq, hreq]
    simp only [stageRespond, hdo, hbody, hmar, true_and]
    exact ⟨_, rfl, rfl⟩
  · intro req resp respBody headerBytes hmem hdo hbody hmar
    rw [sent_eq] at hmem
    rw [ExecuteRequest_eq]
    cases hreq : stageRequest w method url headers body with
    | error e0 => rw [hreq] at hmem; simp at hmem
    | ok r0 =>
      rw [hreq] at hmem
      simp only [List.mem_singleton] at hmem
      subst hmem
      simp only [stageRespond, hdo, hbody, hmar, true_and]
      exact ⟨_, rfl, rfl⟩
  · intro code
    rw [ExecuteRequest_eq, ExecuteRequest_eq]
    have hsame : stageRequest (w.withStatusCode code) method url headers body
        = stageRequest w method url headers body := rfl
    rw [hsame]
    cases stageRequest w method url headers body with
    | error e0 => rfl
    | ok r0 =>
      simp only [stageRespond, World.withStatusCode]
      cases w.clientDo r0 with
      | error e1 => rfl
      | ok resp =>
        simp only []
        cases resp.Body with
        | error e2 => rfl
        | ok b =>
          simp only []
          cases w.jsonMarshal resp.Header <;> rfl

/-- C8, at a transport that answers 503 and at one that answers 404: the request
is sent, the call returns no error, and `status` is 503, respectively 404. -/
theorem C8_status_code_is_not_an_error_witness :
    ((ExecuteRequest (sampleWorld [] [] { sampleResponse with StatusCode := 503 }) methodGET
        "http://h".toList [] []).sent = [⟨methodGET, "http://h".toList, [], []⟩] ∧
      (ExecuteRequest (sampleWorld [] [] { sampleResponse with StatusCode := 503 }) methodGET
        "http://h".toList [] []).err = none ∧
      ∃ r, (ExecuteRequest (sampleWorld [] [] { sampleResponse with StatusCode := 503 })
          methodGET "http://h".toList [] []).result = some r ∧
        r.lookup "status".toList = some (.int 503)) ∧
    ((ExecuteRequest (sampleWorld [] [] { sampleResponse with StatusCode := 404 }) methodGET
        "http://h".toList [] []).sent = [⟨methodGET, "http://h".toList, [], []⟩] ∧
      (ExecuteRequest (sampleWorld [] [] { sampleResponse with StatusCode := 404 }) methodGET
        "http://h".toList [] []).err = none ∧
      ∃ r, (ExecuteRequest (sampleWorld [] [] { sampleResponse with StatusCode := 404 })
          methodGET "http://h".toList [] []).result = some r ∧
        r.lookup "status".toList = some (.int 404)) :=
  ⟨(C8_status_code_is_not_an_error (sampleWorld [] [] { sampleResponse with StatusCode := 503 })
      methodGET "http://h".toList [] []).1 "http://h".toList [] _ _ _
      (Or.inl ⟨by decide, rfl⟩) rfl (Or.inl ⟨rfl, rfl⟩) rfl rfl rfl,
   (C8_status_code_is_not_an_error (sampleWorld [] [] { sampleResponse with StatusCode := 404 })
      methodGET "http://h".toList [] []).1 "http://h".toList [] _ _ _
      (Or.inl ⟨by decide, rfl⟩) rfl (Or.inl ⟨rfl, rfl⟩) rfl rfl rfl⟩

/-- C9: a result map returned by `ExecuteRequest` has exactly the six keys
`status`, `statusText`, `headers`, `body`, `responseTime`, `contentType`;
`status` is the status code of the response the transport gave for the request
sent, `body` is the text read from its body, and `contentType` is the first
value stored under `Content-Type` in its headers, or the empty string when there
is none. -/
theorem C9_result_map_contents (w : World) (method url headers body : Str) (r : ResultMap)
    (h : (ExecuteRequest w method url headers body).result = some r) :
    r.map Prod.fst = resultKeys ∧
    ∃ req resp respBody, (ExecuteRequest w method url headers body).sent = [req] ∧
      w.clientDo req = .ok resp ∧ resp.Body = .ok respBody ∧
      r.lookup "status".toList = some (.int resp.StatusCode) ∧
      r.lookup "body".toList = some (.str respBody) ∧
      (∀ v vs, resp.Header.lookup "Content-Type".toList = some (v :: vs) →
        r.lookup "contentType".toList = some (.str v)) ∧
      ((resp.Header.lookup "Content-Type".toList = none ∨
          resp.Header.lookup "Content-Type".toList = some []) →
        r.lookup "contentType".toList = some (.str [])) := by
  have hcanon : CanonicalMIMEHeaderKey "Content-Type".toList = "Content-Type".toList := by
    decide
  rw [sent_eq]
  rw [ExecuteRequest_eq] at h
  cases hreq : stageRequest w method url headers body with
  | error e0 => rw [hreq] at h; cases h
  | ok r0 =>
    rw [hreq] at h
    simp only [] at h
    cases hresp : stageRespond w r0 with
    | error e1 => rw [hresp] at h; cases h
    | ok r1 =>
      rw [hresp] at h
      simp only [Option.some.injEq] at h
      subst h
      refine ⟨stageRespond_keys w r0 r1 hresp, r0, ?_⟩
      unfold stageRespond at hresp
      cases hdo : w.clientDo r0 with
      | error e => rw [hdo] at hresp; cases hresp
      | ok resp =>
        rw [hdo] at hresp
        simp only [] at hresp
        cases hb : resp.Body with
        | error e => rw [hb] at hresp; cases hresp
        | ok b =>
          rw [hb] at hresp
          simp only [] at hresp
          cases hj : w.jsonMarshal resp.Header with
          | error e => rw [hj] at hresp; cases hresp
          | ok hb2 =>
            rw [hj] at hresp
            simp only [Except.ok.injEq] at hresp
            subst hresp
            refine ⟨resp, b, rfl, rfl, hb, rfl, rfl, ?_, ?_⟩
            · intro v vs hv
              have : resp.Header.Get "Content-Type".toList = v := by
                unfold Header.Get; rw [hcanon, hv]
              rw [← this]; rfl
            · intro hv
              have : resp.Header.Get "Content-Type".toList = [] := by
                unfold Header.Get; rw [hcanon]
                rcases hv with hv | hv <;> rw [hv]
              rw [← this]; rfl

/-- C9, at the specification's mock endpoint (200, body `ok`,
`Content-Type: text/plain`, answered after 5.5 ms): the result map, which has
the six keys. -/
theorem C9_result_map_contents_witness :
    (ExecuteRequest (sampleWorld [] [] sampleResponse) methodGET "http://h".toList [] []).result
      = some [("status".toList, .int 200), ("statusText".toList, .str "200 OK".toList),
          ("headers".toList, .str (jsonObject [("Content-Type".toList, "text/plain".toList)])),
          ("body".toList, .str "ok".toList), ("responseTime".toList, .int 5),
          ("contentType".toList, .str "text/plain".toList)] ∧
    List.map Prod.fst [("status".toList, Value.int 200),
      ("statusText".toList, .str "200 OK".toList),
      ("headers".toList, .str (jsonObject [("Content-Type".toList, "text/plain".toList)])),
      ("body".toList, .str "ok".toList), ("responseTime".toList, .int 5),
      ("contentType".toList, .str "text/plain".toList)] = resultKeys :=
  ⟨by decide,
   (C9_result_map_contents (sampleWorld [] [] sampleResponse) methodGET "http://h".toList [] []
    _ (by decide)).1⟩

/-- C10: substitution touches the URL only: every request handed to the
transport carries the caller's body unchanged and, as headers, exactly the
entries of the parsed header payload set one after the other (no header when
the payload is empty), each header value being a value of the payload verbatim,
whatever the active environment's mapping is; and when an environment with
mapping `m` is active and the later steps succeed, the request sent has the
resolved URL, the caller's body and those headers. -/
theorem C10_substitution_touches_url_only (w : World) (method url headers body : Str) :
    (∀ r ∈ (ExecuteRequest w method url headers body).sent,
      r.Body = body ∧
      ((headers = [] ∧ r.Header = []) ∨
        (headers ≠ [] ∧ ∃ hm, w.jsonUnmarshal headers = .ok hm ∧
          r.Header = setHeaders hm [] ∧
          ∀ entry ∈ r.Header, ∃ kv ∈ hm, entry = (CanonicalMIMEHeaderKey kv.1, [kv.2])))) ∧
    (∀ env m hm, GetActiveEnvironment w.db = (some env, none) →
      w.jsonUnmarshal env.Variables = .ok m →
      w.httpNewRequest method (resolveURL m url) = none →
      headers ≠ [] → w.jsonUnmarshal headers = .ok hm →
      (ExecuteRequest w method url headers body).sent =
        [⟨if method = [] then "GET".toList else method, resolveURL m url, body,
          setHeaders hm []⟩]) := by
  constructor
  · intro r hr
    rw [sent_eq] at hr
    cases hreq : stageRequest w method url headers body with
    | error e => rw [hreq] at hr; simp at hr
    | ok req =>
      rw [hreq] at hr
      simp only [List.mem_singleton] at hr
      subst hr
      obtain ⟨u, _, _, _, hbody, _, hh⟩ := stageRequest_inv w method url headers body r hreq
      refine ⟨hbody, ?_⟩
      rcases hh with hh | ⟨hne, hm, hhm, hhdr⟩
      · exact Or.inl hh
      · refine Or.inr ⟨hne, hm, hhm, hhdr, ?_⟩
        intro entry hentry
        rw [hhdr] at hentry
        rcases mem_setHeaders hm [] entry hentry with h1 | h1
        · simp at h1
        · exact h1
  · intro env m hm hactive hvars hnew hne hheaders
    have hres : stageResolve w url = .ok (resolveURL m url) := by
      rw [stageResolve_active w url env hactive, hvars]
    rw [sent_eq]
    unfold stageRequest
    rw [hres]
    simp only []
    rw [hnew]
    simp only [hne, ne_eq, not_false_eq_true, if_true, hheaders]

/-- C10, at an active mapping with key `a`, a body and a header value that both
contain the token of `a`: the URL is resolved, the body and the header value are
sent as given. -/
theorem C10_substitution_touches_url_only_witness :
    (ExecuteRequest
      (sampleWorld [sampleEnv (jsonObject varsPlain)]
        [(jsonObject varsPlain, varsPlain),
         (jsonObject [("X-Tag".toList, token nameA)], [("X-Tag".toList, token nameA)])]
        sampleResponse)
      methodGET ("http://".toList ++ token nameA)
      (jsonObject [("X-Tag".toList, token nameA)]) (token nameA)).sent =
    [⟨methodGET, "http://api.test".toList, token nameA,
      [("X-Tag".toList, [token nameA])]⟩] :=
  (C10_substitution_touches_url_only
    (sampleWorld [sampleEnv (jsonObject varsPlain)]
      [(jsonObject varsPlain, varsPlain),
       (jsonObject [("X-Tag".toList, token nameA)], [("X-Tag".toList, token nameA)])]
      sampleResponse)
    methodGET ("http://".toList ++ token nameA)
    (jsonObject [("X-Tag".toList, token nameA)]) (token nameA)).2
    (sampleEnv (jsonObject varsPlain)) varsPlain [("X-Tag".toList, token nameA)]
    (by decide) rfl rfl (by decide) rfl

/-! ## Header maps -/

/-- After `h[k] = vs` the key `k` holds `vs`. -/
theorem lookup_assign_self (h : Header) (k : Str) (vs : List Str) :
    (Header.assign h k vs).lookup k = some vs := by
  induction h with
  | nil => simp [Header.assign, List.lookup]
  | cons kv h ih =>
    obtain ⟨k1, vs1⟩ := kv
    simp only [Header.assign]
    by_cases hk : k1 = k
    · simp [hk, List.lookup]
    · have hk2 : (k == k1) = false := by simpa using fun h1 => hk h1.symm
      simp only [hk, if_false, List.lookup, hk2]
      exact ih

/-- And every other key holds what it held. -/
theorem lookup_assign_other (h : Header) (k k2 : Str) (vs : List Str) (hne : k2 ≠ k) :
    (Header.assign h k vs).lookup k2 = h.lookup k2 := by
  induction h with
  | nil =>
    have hk2 : (k2 == k) = false := by simpa using hne
    simp [Header.assign, List.lookup, hk2]
  | cons kv h ih =>
    obtain ⟨k1, vs1⟩ := kv
    simp only [Header.assign]
    by_cases hk : k1 = k
    · have hk2 : (k2 == k) = false := by simpa using hne
      have hk3 : (k2 == k1) = false := by rw [hk]; exact hk2
      simp [hk, List.lookup, hk2]
    · simp only [hk, if_false, List.lookup]
      cases (k2 == k1)
      · exact ih
      · rfl

/-- A canonical key that no entry of the payload maps to is not touched. -/
theorem lookup_setHeaders_other (hm : List (Str × Str)) (h : Header) (k : Str)
    (hk : ∀ kv ∈ hm, CanonicalMIMEHeaderKey kv.1 ≠ k) :
    (setHeaders hm h).lookup k = h.lookup k := by
  induction hm generalizing h with
  | nil => rfl
  | cons kv hm ih =>
    have hstep : setHeaders (kv :: hm) h = setHeaders hm (h.Set kv.1 kv.2) := rfl
    rw [hstep, ih _ (fun kv1 h1 => hk kv1 (List.mem_cons_of_mem _ h1))]
    exact lookup_assign_other h _ k _ (fun heq => hk kv (List.mem_cons_self _ _) heq.symm)

/-- When the canonical keys of the payload are pairwise different, each entry's
canonical key holds exactly that entry's value. -/
theorem lookup_setHeaders_mem (hm : List (Str × Str)) (h : Header)
    (hnd : (hm.map fun kv => CanonicalMIMEHeaderKey kv.1).Nodup)
    (kv : Str × Str) (hkv : kv ∈ hm) :
    (setHeaders hm h).lookup (CanonicalMIMEHeaderKey kv.1) = some [kv.2] := by
  induction hm generalizing h with
  | nil => simp at hkv
  | cons kv0 hm ih =>
    have hstep : setHeaders (kv0 :: hm) h = setHeaders hm (h.Set kv0.1 kv0.2) := rfl
    simp only [List.map_cons, List.nodup_cons, List.mem_map, not_exists, not_and] at hnd
    rw [hstep]
    rcases List.mem_cons.mp hkv with heq | hmem
    · subst heq
      rw [lookup_setHeaders_other hm _ _ (fun kv1 h1 => hnd.1 kv1 h1)]
      exact lookup_assign_self h _ _
    · exact ih _ hnd.2 hmem

/-- With pairwise different canonical keys, the header map does not depend on
the order in which the entries are attached. -/
theorem lookup_setHeaders_perm (hm hm2 : List (Str × Str)) (hp : hm2.Perm hm)
    (hnd : (hm.map fun kv => CanonicalMIMEHeaderKey kv.1).Nodup) (k : Str) :
    (setHeaders hm2 []).lookup k = (setHeaders hm []).lookup k := by
  have hnd2 : (hm2.map fun kv => CanonicalMIMEHeaderKey kv.1).Nodup :=
    ((hp.map _).nodup_iff).mpr hnd
  by_cases hex : ∃ kv ∈ hm, CanonicalMIMEHeaderKey kv.1 = k
  · obtain ⟨kv, hkv, hk⟩ := hex
    rw [← hk, lookup_setHeaders_mem hm [] hnd kv hkv,
      lookup_setHeaders_mem hm2 [] hnd2 kv (hp.mem_iff.mpr hkv)]
  · have hno : ∀ kv ∈ hm, CanonicalMIMEHeaderKey kv.1 ≠ k :=
      fun kv hkv heq => hex ⟨kv, hkv, heq⟩
    rw [lookup_setHeaders_other hm [] k hno,
      lookup_setHeaders_other hm2 [] k (fun kv hkv => hno kv (hp.mem_iff.mp hkv))]

/-! ## Environment operations -/

/-- No id of the list exceeds the running maximum. -/
theorem le_foldl_max (l : List Int) (init : Int) :
    init ≤ l.foldl max init ∧ ∀ x ∈ l, x ≤ l.foldl max init := by
  induction l generalizing init with
  | nil => simp
  | cons a l ih =>
    simp only [List.foldl_cons, List.mem_cons]
    have h1 := (ih (max init a)).1
    have h2 := (ih (max init a)).2
    refine ⟨le_trans (le_max_left _ _) h1, ?_⟩
    intro x hx
    rcases hx with rfl | hx
    · exact le_trans (le_max_right _ _) h1
    · exact h2 x hx

/-- The id given to an inserted row is the id of no stored row. -/
theorem nextID_fresh (t : EnvTable) : t.nextID ∉ t.rows.map (fun r => r.ID) := by
  intro hmem
  have := (le_foldl_max (t.rows.map fun r => r.ID) t.lastID).2 _ hmem
  unfold EnvTable.nextID at this
  omega

/-- Rows with pairwise different ids, of which only rows with the id `id` are
flagged, have at most one flag set. -/
theorem countP_active_le_one (rows : List Environment) (id : Int)
    (hnd : (rows.map fun r => r.ID).Nodup)
    (hact : ∀ r ∈ rows, r.IsActive = true → r.ID = id) :
    rows.countP (fun r => r.IsActive) ≤ 1 := by
  induction rows with
  | nil => simp
  | cons r rows ih =>
    simp only [List.map_cons, List.nodup_cons, List.mem_map, not_exists, not_and] at hnd
    have hrest := ih hnd.2 (fun r1 h1 => hact r1 (List.mem_cons_of_mem _ h1))
    by_cases hr : r.IsActive = true
    · have hid := hact r (List.mem_cons_self _ _) hr
      have hzero : rows.countP (fun r => r.IsActive) = 0 := by
        rw [List.countP_eq_zero]
        intro r1 h1 hr1
        exact hnd.1 r1 h1 ((hact r1 (List.mem_cons_of_mem _ h1) hr1).trans hid.symm)
      rw [List.countP_cons_of_pos _ _ hr, hzero]
    · rw [List.countP_cons_of_neg _ _ hr]
      exact hrest

/-- A rewrite of the rows that sets no flag does not raise the number of flags. -/
theorem countP_active_map_le (rows : List Environment) (f : Environment → Environment)
    (hf : ∀ r, (f r).IsActive = true → r.IsActive = true) :
    (rows.map f).countP (fun r => r.IsActive) ≤ rows.countP (fun r => r.IsActive) := by
  induction rows with
  | nil => simp
  | cons r rows ih =>
    simp only [List.map_cons, List.countP_cons]
    cases hfr : (f r).IsActive with
    | true =>
      rw [hf r hfr]
      simp only [if_true]
      omega
    | false =>
      simp only [Bool.false_eq_true, if_false]
      omega

/-- A rewrite of the rows that keeps every id keeps the list of ids. -/
theorem map_ID_map (rows : List Environment) (f : Environment → Environment)
    (hf : ∀ r, (f r).ID = r.ID) :
    (rows.map f).map (fun r => r.ID) = rows.map (fun r => r.ID) := by
  rw [List.map_map]
  congr 1
  funext r
  exact hf r

/-- The invariant of the store: pairwise different ids, at most one flag set. -/
theorem invariant_step (t : EnvTable) (op : EnvOp)
    (hinv : (t.rows.map fun r => r.ID).Nodup ∧ t.activeCount ≤ 1)
    (hop : op.deactivationFails = false) :
    ((op.run t).rows.map fun r => r.ID).Nodup ∧ (op.run t).activeCount ≤ 1 := by
  obtain ⟨hnd, hcount⟩ := hinv
  unfold EnvTable.activeCount at hcount ⊢
  cases op with
  | create name vars now fault =>
    cases fault with
    | some msg => exact ⟨hnd, hcount⟩
    | none =>
      have hfresh := nextID_fresh t
      simp only [EnvOp.run, APIClientService.CreateEnvironment, database.CreateEnvironment,
        List.map_append, List.map_cons, List.map_nil, List.countP_append, List.countP_cons,
        List.countP_nil]
      refine ⟨?_, by simpa using hcount⟩
      rw [List.nodup_append]
      refine ⟨hnd, by simp, ?_⟩
      intro a ha hb
      simp only [List.mem_singleton] at hb
      exact hfresh (hb ▸ ha)
  | delete id fault =>
    cases fault with
    | some msg => exact ⟨hnd, hcount⟩
    | none =>
      simp only [EnvOp.run, APIClientService.DeleteEnvironment, database.DeleteEnvironment]
      refine ⟨?_, ?_⟩
      · exact hnd.sublist ((List.filter_sublist _).map _)
      · exact le_trans ((List.filter_sublist _).countP_le _) hcount
  | update id name vars isActive fault0 fault1 fault2 =>
    cases fault0 with
    | some msg => exact ⟨hnd, hcount⟩
    | none =>
      cases isActive with
      | false =>
        simp only [EnvOp.run, APIClientService.UpdateEnvironment, database.UpdateEnvironment,
          Bool.false_eq_true, if_false]
        refine ⟨?_, ?_⟩
        · rw [List.map_map]
          have : ((fun r : Environment => r.ID) ∘ fun r : Environment =>
              if r.ID = id then
                { r with Name := name, Variables := vars, IsActive := false }
              else r) = fun r => r.ID := by
            funext r; simp only [Function.comp]; split <;> rfl
          rw [this]; exact hnd
        · refine le_trans (countP_active_map_le _ _ ?_) hcount
          intro r hr
          split at hr
          · simp at hr
          · exact hr
      | true =>
        cases fault1 with
        | some msg => simp [EnvOp.deactivationFails] at hop
        | none =>
          cases fault2 with
          | some msg =>
            simp only [EnvOp.run, APIClientService.UpdateEnvironment,
              database.UpdateEnvironment, database.SetActiveEnvironment, if_true]
            refine ⟨?_, ?_⟩
            · rw [map_ID_map _ (fun r => { r with IsActive := false }) (fun r => rfl),
                map_ID_map t.rows _ (fun r => by split <;> rfl)]
              exact hnd
            · have : ∀ rows : List Environment,
                  (rows.map fun r => { r with IsActive := false }).countP
                    (fun r => r.IsActive) = 0 := by
                intro rows
                rw [List.countP_eq_zero]
                intro r hr
                obtain ⟨r0, _, rfl⟩ := List.mem_map.mp hr
                simp
              rw [this]
              omega
          | none =>
            simp only [EnvOp.run, APIClientService.UpdateEnvironment,
              database.UpdateEnvironment, database.SetActiveEnvironment, if_true]
            have hnd3 : (((((t.rows.map fun r =>
                if r.ID = id then
                  { r with Name := name, Variables := vars, IsActive := true }
                else r).map fun r => { r with IsActive := false }).map fun r =>
                if r.ID = id then { r with IsActive := true } else r).map
                  fun r => r.ID)).Nodup := by
              rw [map_ID_map _ (fun r => if r.ID = id then { r with IsActive := true } else r)
                  (fun r => by simp only []; split <;> rfl),
                map_ID_map _ (fun r => { r with IsActive := false }) (fun r => rfl),
                map_ID_map t.rows _ (fun r => by split <;> rfl)]
              exact hnd
            refine ⟨hnd3, countP_active_le_one _ id hnd3 ?_⟩
            intro r hr hact
            obtain ⟨r1, hr1, rfl⟩ := List.mem_map.mp hr
            obtain ⟨r2, _, rfl⟩ := List.mem_map.mp hr1
            by_cases hid : r2.ID = id
            · simp [hid]
            · simp [hid] at hact

/-- The invariant along a sequence of operations. -/
theorem invariant_foldl (ops : List EnvOp) (t : EnvTable)
    (hinv : (t.rows.map fun r => r.ID).Nodup ∧ t.activeCount ≤ 1)
    (hops : ∀ op ∈ ops, op.deactivationFails = false) :
    ((ops.foldl EnvOp.run t).rows.map fun r => r.ID).Nodup ∧
      (ops.foldl EnvOp.run t).activeCount ≤ 1 := by
  induction ops generalizing t with
  | nil => exact hinv
  | cons op ops ih =>
    exact ih _ (invariant_step t op hinv (hops op (List.mem_cons_self _ _)))
      (fun op1 h1 => hops op1 (List.mem_cons_of_mem _ h1))

/-- After the three statements of an activating update, the first flagged row
is a row with the given id, name and variables. -/
theorem find_active_after_update (rows : List Environment) (id : Int) (name vars : Str)
    (hex : ∃ r ∈ rows, r.ID = id) :
    ∃ env, (((rows.map fun r =>
        if r.ID = id then
          { r with Name := name, Variables := vars, IsActive := true }
        else r).map fun r => { r with IsActive := false }).map fun r =>
        if r.ID = id then { r with IsActive := true } else r).find? (fun r => r.IsActive)
        = some env ∧
      env.ID = id ∧ env.Name = name ∧ env.Variables = vars ∧ env.IsActive = true := by
  induction rows with
  | nil => simp at hex
  | cons r rows ih =>
    by_cases hid : r.ID = id
    · refine ⟨{ r with Name := name, Variables := vars, IsActive := true }, ?_, hid, rfl, rfl,
        rfl⟩
      simp [hid, List.find?_cons]
    · have hex2 : ∃ r1 ∈ rows, r1.ID = id := by
        obtain ⟨r1, hr1, h1⟩ := hex
        rcases List.mem_cons.mp hr1 with rfl | hmem
        · exact absurd h1 hid
        · exact ⟨r1, hmem, h1⟩
      obtain ⟨env, henv, hprops⟩ := ih hex2
      refine ⟨env, ?_, hprops⟩
      simp only [List.map_cons, hid, if_false, List.find?_cons]
      exact henv

/-! ## Request listings -/

/-- Every record of `GetRequestsByCollection` has a nil `CollectionID`, and every
record of `GetRequestsByFolder` a nil `FolderID`. -/
theorem listings_filter_field_nil (rows : List RequestRow) (fault : Option String)
    (n : Int) :
    (∀ rec ∈ (GetRequestsByCollection rows fault n).1, rec.CollectionID = none) ∧
    (∀ rec ∈ (GetRequestsByFolder rows fault n).1, rec.FolderID = none) := by
  constructor
  · intro rec hrec
    unfold GetRequestsByCollection at hrec
    cases fault with
    | some msg => simp at hrec
    | none =>
      simp only [List.mem_map] at hrec
      obtain ⟨row, _, rfl⟩ := hrec
      cases row.folder_id <;> rfl
  · intro rec hrec
    unfold GetRequestsByFolder at hrec
    cases fault with
    | some msg => simp at hrec
    | none =>
      simp only [List.mem_map] at hrec
      obtain ⟨row, _, rfl⟩ := hrec
      cases row.collection_id <;> rfl

/-! ## Properties of the specification: storage, headers and timing -/

/-- C11: the lookup tells "none active" from failure.  `GetActiveEnvironment`
returns no environment and no error exactly when the storage answers and no row
is flagged active; when the storage fails it returns that error and no
environment; when the storage answers and a row is flagged it returns the first
flagged row and no error.  And when the lookup returns an error,
`ExecuteRequest` returns that error and no result, and hands nothing to the
transport. -/
theorem C11_lookup_none_active_or_error :
    (∀ db : DB, GetActiveEnvironment db = (none, none) ↔
      (db.fault = none ∧ ∀ r ∈ db.environments, r.IsActive = false)) ∧
    (∀ (db : DB) (msg : String), db.fault = some msg →
      GetActiveEnvironment db = (none, some (.other msg))) ∧
    (∀ (db : DB) (r : Environment), db.fault = none →
      db.environments.find? (fun r => r.IsActive) = some r →
      GetActiveEnvironment db = (some r, none) ∧ r.IsActive = true) ∧
    (∀ (w : World) (method url headers body : Str) (env : Option Environment) (e : Error),
      GetActiveEnvironment w.db = (env, some e) →
      (ExecuteRequest w method url headers body).result = none ∧
      (ExecuteRequest w method url headers body).err = some e ∧
      (ExecuteRequest w method url headers body).sent = []) := by
  refine ⟨?_, ?_, ?_, ?_⟩
  · intro db
    unfold GetActiveEnvironment scanActiveRow
    cases hf : db.fault with
    | some msg => simp
    | none =>
      cases hfind : db.environments.find? (fun r => r.IsActive) with
      | none =>
        simp only [if_true, true_and, true_iff]
        intro r hr
        have := List.find?_eq_none.mp hfind r hr
        simpa using this
      | some r =>
        have hact : r.IsActive = true := by simpa using List.find?_some hfind
        have hmem : r ∈ db.environments := List.mem_of_find?_eq_some hfind
        simp only [true_and, Prod.mk.injEq, reduceCtorEq, false_and, false_iff, not_forall]
        exact ⟨r, hmem, by simp [hact]⟩
  · intro db msg hf
    unfold GetActiveEnvironment scanActiveRow
    rw [hf]
    simp
  · intro db r hf hfind
    unfold GetActiveEnvironment scanActiveRow
    rw [hf, hfind]
    exact ⟨rfl, by simpa using List.find?_some hfind⟩
  · intro w method url headers body env e hg
    have hres : stageResolve w url = .error e := by
      unfold stageResolve; rw [hg]; cases env <;> rfl
    have hreq : stageRequest w method url headers body = .error e := by
      unfold stageRequest; rw [hres]
    rw [ExecuteRequest_eq, hreq]
    exact ⟨rfl, rfl, rfl⟩

/-- C11, at a storage that fails with `disk I/O error`: the lookup returns that
error, and `ExecuteRequest` returns it with no result and nothing sent. -/
theorem C11_lookup_none_active_or_error_witness :
    GetActiveEnvironment ⟨[sampleEnv []], some "disk I/O error"⟩
      = (none, some (.other "disk I/O error")) ∧
    (ExecuteRequest { worldWith varsPlain with db := ⟨[sampleEnv []], some "disk I/O error"⟩ }
      methodGET (token nameA) [] []).result = none ∧
    (ExecuteRequest { worldWith varsPlain with db := ⟨[sampleEnv []], some "disk I/O error"⟩ }
      methodGET (token nameA) [] []).err = some (.other "disk I/O error") ∧
    (ExecuteRequest { worldWith varsPlain with db := ⟨[sampleEnv []], some "disk I/O error"⟩ }
      methodGET (token nameA) [] []).sent = [] :=
  ⟨C11_lookup_none_active_or_error.2.1 ⟨[sampleEnv []], some "disk I/O error"⟩ _ rfl,
   C11_lookup_none_active_or_error.2.2.2
    { worldWith varsPlain with db := ⟨[sampleEnv []], some "disk I/O error"⟩ }
    methodGET (token nameA) [] [] none _ (by decide)⟩

/-- C12 (refuted as stated): two environments are created and the first is
activated; the second is then activated by a call whose row update runs and
whose deactivating statement fails.  The call returns the error and leaves both
rows flagged active. -/
theorem C12_counterexample :
    (runOps opsTwoActive).rows.map (fun r => (r.ID, r.IsActive)) = [(1, true), (2, true)] ∧
    (runOps opsTwoActive).activeCount = 2 ∧
    (APIClientService.UpdateEnvironment (runOps (opsTwoActive.take 3)) none
      (some "database is locked") none 2 "prod".toList [] true).2
      = (none, some (.other "database is locked")) := by
  decide

/-- C12 (amended): in every store reached from the empty store by calls of
`CreateEnvironment`, `UpdateEnvironment` and `DeleteEnvironment`, whichever of
their storage statements fail, at most one row is flagged active, provided that
in no call the statement that deactivates all rows fails after the row update
has run with `isActive` set. -/
theorem C12_at_most_one_active (ops : List EnvOp)
    (hops : ∀ op ∈ ops, op.deactivationFails = false) :
    (runOps ops).activeCount ≤ 1 ∧ ((runOps ops).rows.map fun r => r.ID).Nodup :=
  have h := invariant_foldl ops ⟨[], 0⟩ ⟨by simp, by simp [EnvTable.activeCount]⟩ hops
  ⟨h.2, h.1⟩

/-- C12 (amended), at a sequence with a failing activation, a failing delete and
a failing create: one row is flagged. -/
theorem C12_at_most_one_active_witness :
    (runOps opsOneActive).rows.map (fun r => (r.ID, r.IsActive)) = [(1, true), (2, false)] ∧
    (runOps opsOneActive).activeCount ≤ 1 :=
  ⟨by decide, (C12_at_most_one_active opsOneActive (by decide)).1⟩

/-- C13 (refuted as stated): the payload with the keys `x-a` (value `1`) and
`X-A` (value `2`) parses to a mapping with two keys; the request handed to the
transport has the single header `X-A`, whose value is `2` when the loop visits
`x-a` first and `1` when it visits `X-A` first, so one of the two keys does not
get its value and the outcome depends on the order. -/
theorem C13_counterexample :
    (ExecuteRequest (worldHeaders headersCase headersCase) methodGET "http://h".toList
      (jsonObject headersCase) []).sent.map Request.Header
      = [[("X-A".toList, [['2']])]] ∧
    (ExecuteRequest (worldHeaders headersCase headersCase.reverse) methodGET "http://h".toList
      (jsonObject headersCase) []).sent.map Request.Header
      = [[("X-A".toList, [['1']])]] ∧
    Header.Get [("X-A".toList, [['2']])] "x-a".toList ≠ ['1'] ∧
    Header.Get [("X-A".toList, [['1']])] "X-A".toList ≠ ['2'] := by
  decide

/-- C13 (amended): for a non-empty header payload that parses to a mapping whose
keys have pairwise different canonical forms (no two keys name the same header
up to letter case), every request handed to the transport has, for every key
`k` of the mapping, exactly one value under the canonical form of `k`, the value
the mapping gives `k`, and it has no other header; and the header map is the
same for every order in which the entries are attached. -/
theorem C13_headers_mapping_semantics (w : World) (method url headers body : Str)
    (hm : List (Str × Str)) (hne : headers ≠ [])
    (hparse : w.jsonUnmarshal headers = .ok hm)
    (hdistinct : (hm.map fun kv => CanonicalMIMEHeaderKey kv.1).Nodup) :
    (∀ r ∈ (ExecuteRequest w method url headers body).sent,
      (∀ kv ∈ hm, r.Header.lookup (CanonicalMIMEHeaderKey kv.1) = some [kv.2] ∧
        r.Header.Get kv.1 = kv.2) ∧
      (∀ entry ∈ r.Header, ∃ kv ∈ hm, entry = (CanonicalMIMEHeaderKey kv.1, [kv.2]))) ∧
    (∀ hm2 : List (Str × Str), hm2.Perm hm →
      ∀ k, (setHeaders hm2 []).lookup k = (setHeaders hm []).lookup k) := by
  constructor
  · intro r hr
    rw [sent_eq] at hr
    cases hreq : stageRequest w method url headers body with
    | error e => rw [hreq] at hr; simp at hr
    | ok req =>
      rw [hreq] at hr
      simp only [List.mem_singleton] at hr
      subst hr
      obtain ⟨u, _, _, _, _, _, hh⟩ := stageRequest_inv w method url headers body r hreq
      rcases hh with ⟨hh, _⟩ | ⟨_, hm1, hhm1, hhdr⟩
      · exact absurd hh hne
      · rw [hparse] at hhm1
        cases hhm1
        constructor
        · intro kv hkv
          have hl := lookup_setHeaders_mem hm [] hdistinct kv hkv
          rw [hhdr]
          refine ⟨hl, ?_⟩
          unfold Header.Get
          rw [hl]
        · intro entry hentry
          rw [hhdr] at hentry
          rcases mem_setHeaders hm [] entry hentry with h1 | h1
          · simp at h1
          · exact h1
  · intro hm2 hp k
    exact lookup_setHeaders_perm hm hm2 hp hdistinct k

/-- C13 (amended), at the payload `accept: text/html`, `X-Tag: {{a}}`: the
request has `Accept` and `X-Tag`, each with its value. -/
theorem C13_headers_mapping_semantics_witness :
    (ExecuteRequest (worldHeaders headersPlain headersPlain) methodGET "http://h".toList
      (jsonObject headersPlain) []).sent
      = [⟨methodGET, "http://h".toList, [],
          [("Accept".toList, ["text/html".toList]), ("X-Tag".toList, [token nameA])]⟩] ∧
    Header.Get [("Accept".toList, ["text/html".toList]), ("X-Tag".toList, [token nameA])]
      "accept".toList = "text/html".toList :=
  ⟨by decide,
   (((C13_headers_mapping_semantics (worldHeaders headersPlain headersPlain) methodGET
      "http://h".toList (jsonObject headersPlain) [] headersPlain (by decide) rfl
      (by decide)).1
      ⟨methodGET, "http://h".toList, [],
        [("Accept".toList, ["text/html".toList]), ("X-Tag".toList, [token nameA])]⟩
      (by decide)).1 ("accept".toList, "text/html".toList) (by decide)).2⟩

/-- C14: the `responseTime` of a result is the whole milliseconds (rounded
toward zero) of the difference between the clock reading taken right after
`client.Do` returned and the one taken right before it.  With a clock that does
not run backwards it is not negative and is the largest whole number of
milliseconds within that difference; and when the transport took `d`
nanoseconds between the two readings and `d` is at least `X` milliseconds,
`responseTime` is at least `X`. -/
theorem C14_response_time (w : World) (method url headers body : Str) (r : ResultMap)
    (h : (ExecuteRequest w method url headers body).result = some r) :
    r.lookup "responseTime".toList
      = some (.int (Milliseconds (w.endNanos - w.startNanos))) ∧
    (w.startNanos ≤ w.endNanos →
      0 ≤ Milliseconds (w.endNanos - w.startNanos) ∧
      Milliseconds (w.endNanos - w.startNanos) * 1000000 ≤ w.endNanos - w.startNanos ∧
      w.endNanos - w.startNanos < (Milliseconds (w.endNanos - w.startNanos) + 1) * 1000000) ∧
    (∀ X d : Int, 0 ≤ d → w.startNanos + d ≤ w.endNanos → X * 1000000 ≤ d →
      X ≤ Milliseconds (w.endNanos - w.startNanos)) := by
  refine ⟨?_, ?_, ?_⟩
  · rw [ExecuteRequest_eq] at h
    cases hreq : stageRequest w method url headers body with
    | error e0 => rw [hreq] at h; cases h
    | ok r0 =>
      rw [hreq] at h
      simp only [] at h
      cases hresp : stageRespond w r0 with
      | error e1 => rw [hresp] at h; cases h
      | ok r1 =>
        rw [hresp] at h
        simp only [Option.some.injEq] at h
        subst h
        unfold stageRespond at hresp
        cases hdo : w.clientDo r0 with
        | error e => rw [hdo] at hresp; cases hresp
        | ok resp =>
          rw [hdo] at hresp
          simp only [] at hresp
          cases hb : resp.Body with
          | error e => rw [hb] at hresp; cases hresp
          | ok b =>
            rw [hb] at hresp
            simp only [] at hresp
            cases hj : w.jsonMarshal resp.Header with
            | error e => rw [hj] at hresp; cases hresp
            | ok hb2 =>
              rw [hj] at hresp
              simp only [Except.ok.injEq] at hresp
              subst hresp
              rfl
  · intro hmono
    have hd : 0 ≤ w.endNanos - w.startNanos := by omega
    unfold Milliseconds
    rw [Int.tdiv_eq_ediv hd (by decide)]
    omega
  · intro X d hd0 hd hX
    have hd2 : 0 ≤ w.endNanos - w.startNanos := by omega
    unfold Milliseconds
    rw [Int.tdiv_eq_ediv hd2 (by decide)]
    omega

/-- C14, at a transport that answers after 5.5 ms: `responseTime` is 5, which is
at least the 5 ms the transport took. -/
theorem C14_response_time_witness :
    (ExecuteRequest (sampleWorld [] [] sampleResponse) methodGET "http://h".toList [] []).result
      = some [("status".toList, .int 200), ("statusText".toList, .str "200 OK".toList),
          ("headers".toList, .str (jsonObject [("Content-Type".toList, "text/plain".toList)])),
          ("body".toList, .str "ok".toList), ("responseTime".toList, .int 5),
          ("contentType".toList, .str "text/plain".toList)] ∧
    (5 : Int) ≤ Milliseconds ((sampleWorld [] [] sampleResponse).endNanos
      - (sampleWorld [] [] sampleResponse).startNanos) :=
  ⟨by decide,
   (C14_response_time (sampleWorld [] [] sampleResponse) methodGET "http://h".toList [] []
    [("status".toList, .int 200), ("statusText".toList, .str "200 OK".toList),
      ("headers".toList, .str (jsonObject [("Content-Type".toList, "text/plain".toList)])),
      ("body".toList, .str "ok".toList), ("responseTime".toList, .int 5),
      ("contentType".toList, .str "text/plain".toList)]
    (by decide)).2.2 5 5500000 (by decide) (by decide) (by decide)⟩

/-- C15 (refuted as stated): in a store whose only environment, `dev` with id 1,
is active, `UpdateEnvironment(7, "x", "", true)` returns its struct and no
error, since an `UPDATE` that matches no row is not an error; afterwards no
environment is active at all and `GetActiveEnvironment` returns none. -/
theorem C15_counterexample :
    GetActiveEnvironment (tableDevActive.db none)
      = (some ⟨1, "dev".toList, [], true, "2024-01-01 00:00:00".toList⟩, none) ∧
    (APIClientService.UpdateEnvironment tableDevActive none none none 7 ['x'] [] true).2
      = (some ⟨7, ['x'], [], true, []⟩, none) ∧
    GetActiveEnvironment
      ((APIClientService.UpdateEnvironment tableDevActive none none none 7 ['x'] [] true).1.db
        none) = (none, none) := by
  decide

/-- C15 (amended): whenever `UpdateEnvironment(id, name, variables, true)`
returns without error and `id` is the id of a stored environment, a lookup that
the storage answers returns, as the active environment, an environment with
that id, the given name and the given variables, flagged active, for every
prior store state. -/
theorem C15_update_active_sets_active (t : EnvTable) (fault0 fault1 fault2 : Option String)
    (id : Int) (name vars : Str)
    (hex : ∃ r ∈ t.rows, r.ID = id)
    (hok : (APIClientService.UpdateEnvironment t fault0 fault1 fault2 id name vars true).2.2
      = none) :
    ∃ env, GetActiveEnvironment
        ((APIClientService.UpdateEnvironment t fault0 fault1 fault2 id name vars true).1.db
          none) = (some env, none) ∧
      env.ID = id ∧ env.Name = name ∧ env.Variables = vars ∧ env.IsActive = true := by
  cases fault0 with
  | some msg => simp [APIClientService.UpdateEnvironment, database.UpdateEnvironment] at hok
  | none =>
    cases fault1 with
    | some msg =>
      simp [APIClientService.UpdateEnvironment, database.UpdateEnvironment,
        database.SetActiveEnvironment] at hok
    | none =>
      cases fault2 with
      | some msg =>
        simp [APIClientService.UpdateEnvironment, database.UpdateEnvironment,
          database.SetActiveEnvironment] at hok
      | none =>
        obtain ⟨env, hfind, hprops⟩ := find_active_after_update t.rows id name vars hex
        refine ⟨env, ?_, hprops⟩
        simp only [APIClientService.UpdateEnvironment, database.UpdateEnvironment,
          database.SetActiveEnvironment, if_true, EnvTable.db, GetActiveEnvironment,
          scanActiveRow]
        rw [hfind]

/-- C15 (amended), at the store with the active environment `dev` (id 1) and a
second environment (id 2): after `UpdateEnvironment(2, "prod", "", true)` the
lookup returns environment 2. -/
theorem C15_update_active_sets_active_witness :
    GetActiveEnvironment
      ((APIClientService.UpdateEnvironment (runOps (opsTwoActive.take 3)) none none none 2
        "prod".toList [] true).1.db none)
      = (some ⟨2, "prod".toList, [], true, "2024-01-01 00:00:01".toList⟩, none) ∧
    ∃ env, GetActiveEnvironment
        ((APIClientService.UpdateEnvironment (runOps (opsTwoActive.take 3)) none none none 2
          "prod".toList [] true).1.db none) = (some env, none) ∧
      env.ID = 2 ∧ env.Name = "prod".toList ∧ env.Variables = [] ∧ env.IsActive = true :=
  ⟨by decide,
   C15_update_active_sets_active (runOps (opsTwoActive.take 3)) none none none 2
    "prod".toList [] ⟨⟨2, "prod".toList, [], false, "2024-01-01 00:00:01".toList⟩,
      by decide, rfl⟩ (by decide)⟩

/-- C16 (the code at a stored request of collection 1 and folder 2):
`GetRequest` returns the record with `CollectionID` 1 and `FolderID` 2;
`GetRequestsByCollection(1)` returns the same record but with a nil
`CollectionID`, and `GetRequestsByFolder(2)` returns it with a nil `FolderID`:
neither listing agrees with `GetRequest` on that field. -/
theorem C16_listings_drop_the_filter_field :
    GetRequest [sampleRequestRow] none 5 = (some sampleRequestRecord, none) ∧
    sampleRequestRecord.CollectionID = some 1 ∧ sampleRequestRecord.FolderID = some 2 ∧
    GetRequestsByCollection [sampleRequestRow] none 1
      = ([{ sampleRequestRecord with CollectionID := none }], none) ∧
    GetRequestsByFolder [sampleRequestRow] none 2
      = ([{ sampleRequestRecord with FolderID := none }], none) ∧
    sampleRequestRecord ∉ (GetRequestsByCollection [sampleRequestRow] none 1).1 ∧
    sampleRequestRecord ∉ (GetRequestsByFolder [sampleRequestRow] none 2).1 := by
  decide

end Goman
